import Mathlib

/-!
Verification of `recovery-logs-from-s3.py`: a shallow embedding of the
per-day retrieval / verify / decompress / filter / emit pipeline, together
with theorems checking the natural-language specification against it.

Strings from the Python source are embedded as `List Char`; machine I/O
(S3, the filesystem clock, `time.sleep`) is reflected as explicit event
traces; genuinely-diverging loops are embedded with fuel plus a proof that
the chosen fuel is exact (the loop terminates iff the fueled version
returns `some`).
-/

/-! ## Timestamps

`datetime` values produced by `datetime.strptime(s, '%Y-%m-%dT%H:%M:%S')`
and compared field-lexicographically, as Python compares `datetime`s. -/

structure PyDateTime where
  year : Nat
  month : Nat
  day : Nat
  hour : Nat
  minute : Nat
  second : Nat
deriving DecidableEq, Repr

/-- Python `datetime` comparison: lexicographic on the six fields. -/
def dtLe (a b : PyDateTime) : Bool :=
  if a.year ≠ b.year then a.year < b.year
  else if a.month ≠ b.month then a.month < b.month
  else if a.day ≠ b.day then a.day < b.day
  else if a.hour ≠ b.hour then a.hour < b.hour
  else if a.minute ≠ b.minute then a.minute < b.minute
  else a.second ≤ b.second

/-- Leap-year test used by Python's `calendar`/`datetime`. -/
def isLeap (y : Nat) : Bool :=
  y % 4 = 0 && (y % 100 ≠ 0 || y % 400 = 0)

/-- Days in a month, as validated by the `datetime` constructor. -/
def daysInMonth (y m : Nat) : Nat :=
  if m = 2 then (if isLeap y then 29 else 28)
  else if m = 4 ∨ m = 6 ∨ m = 9 ∨ m = 11 then 30
  else 31

def digitVal (c : Char) : Nat := c.toNat - 48

def isDig (c : Char) : Bool := '0' ≤ c && c ≤ '9'

/-- `%Y` in `_strptime`: exactly four digits. -/
def parseY : List Char → Option (Nat × List Char)
  | a :: b :: c :: d :: rest =>
    if isDig a && isDig b && isDig c && isDig d then
      some (1000 * digitVal a + 100 * digitVal b + 10 * digitVal c + digitVal d, rest)
    else none
  | _ => none

/-- `%m` in `_strptime`: regex `1[0-2]|0[1-9]|[1-9]`, greedy. -/
def parseMon : List Char → Option (Nat × List Char)
  | [] => none
  | a :: rest =>
    match rest with
    | b :: rest2 =>
      if a = '1' && '0' ≤ b && b ≤ '2' then some (10 + digitVal b, rest2)
      else if a = '0' && '1' ≤ b && b ≤ '9' then some (digitVal b, rest2)
      else if '1' ≤ a && a ≤ '9' then some (digitVal a, rest)
      else none
    | [] => if '1' ≤ a && a ≤ '9' then some (digitVal a, []) else none

/-- `%d` in `_strptime`: regex `3[01]|[12]\d|0[1-9]|[1-9]`, greedy. -/
def parseDay : List Char → Option (Nat × List Char)
  | [] => none
  | a :: rest =>
    match rest with
    | b :: rest2 =>
      if a = '3' && '0' ≤ b && b ≤ '1' then some (30 + digitVal b, rest2)
      else if ('1' ≤ a && a ≤ '2') && isDig b then some (10 * digitVal a + digitVal b, rest2)
      else if a = '0' && '1' ≤ b && b ≤ '9' then some (digitVal b, rest2)
      else if '1' ≤ a && a ≤ '9' then some (digitVal a, rest)
      else none
    | [] => if '1' ≤ a && a ≤ '9' then some (digitVal a, []) else none

/-- `%H` in `_strptime`: regex `2[0-3]|[01]\d|\d`, greedy. -/
def parseHour : List Char → Option (Nat × List Char)
  | [] => none
  | a :: rest =>
    match rest with
    | b :: rest2 =>
      if a = '2' && '0' ≤ b && b ≤ '3' then some (20 + digitVal b, rest2)
      else if ('0' ≤ a && a ≤ '1') && isDig b then some (10 * digitVal a + digitVal b, rest2)
      else if isDig a then some (digitVal a, rest)
      else none
    | [] => if isDig a then some (digitVal a, []) else none

/-- `%M` in `_strptime`: regex `[0-5]\d|\d`, greedy. -/
def parseMin : List Char → Option (Nat × List Char)
  | [] => none
  | a :: rest =>
    match rest with
    | b :: rest2 =>
      if ('0' ≤ a && a ≤ '5') && isDig b then some (10 * digitVal a + digitVal b, rest2)
      else if isDig a then some (digitVal a, rest)
      else none
    | [] => if isDig a then some (digitVal a, []) else none

/-- `%S` in `_strptime`: regex `6[01]|[0-5]\d|\d`, greedy. -/
def parseSec : List Char → Option (Nat × List Char)
  | [] => none
  | a :: rest =>
    match rest with
    | b :: rest2 =>
      if a = '6' && '0' ≤ b && b ≤ '1' then some (60 + digitVal b, rest2)
      else if ('0' ≤ a && a ≤ '5') && isDig b then some (10 * digitVal a + digitVal b, rest2)
      else if isDig a then some (digitVal a, rest)
      else none
    | [] => if isDig a then some (digitVal a, []) else none

/-- A literal separator character of the format string. -/
def expectCh (c : Char) : List Char → Option (List Char)
  | x :: rest => if x = c then some rest else none
  | [] => none

/-- `datetime.strptime(s, '%Y-%m-%dT%H:%M:%S')`: the `_strptime` regex
match (with its flexible 1-2 digit fields), requiring full consumption
("unconverted data remains" otherwise), then the `datetime(...)`
constructor checks (year ≥ 1, day within month, second ≤ 59). -/
def parse19 (cs : List Char) : Option PyDateTime := do
  let (y, r1) ← parseY cs
  let r2 ← expectCh '-' r1
  let (mo, r3) ← parseMon r2
  let r4 ← expectCh '-' r3
  let (dy, r5) ← parseDay r4
  let r6 ← expectCh 'T' r5
  let (h, r7) ← parseHour r6
  let r8 ← expectCh ':' r7
  let (mi, r9) ← parseMin r8
  let r10 ← expectCh ':' r9
  let (se, r11) ← parseSec r10
  if r11 = [] ∧ 1 ≤ y ∧ dy ≤ daysInMonth y mo ∧ se ≤ 59 then
    some ⟨y, mo, dy, h, mi, se⟩
  else none

/-! ## The timestamp-padding loop

```
while len(line_json['timestamp'].split("+")[0]) < 23:
    line_json['timestamp'] = line_json['timestamp'][:20] + "0" + line_json['timestamp'][20:]
```

`preLen` is `len(ts.split("+")[0])`; `pad1` is one body iteration. The
loop can genuinely diverge (when the first `'+'` sits before index 20),
so it is embedded with fuel; fuel 23 is proved exact below. -/

def preLen (ts : List Char) : Nat := (ts.takeWhile (fun c => c ≠ '+')).length

def pad1 (ts : List Char) : List Char := ts.take 20 ++ '0' :: ts.drop 20

def padLoopFuel : Nat → List Char → Option (List Char)
  | 0, ts => if preLen ts < 23 then none else some ts
  | n + 1, ts => if preLen ts < 23 then padLoopFuel n (pad1 ts) else some ts

def padTimestamp (ts : List Char) : Option (List Char) := padLoopFuel 23 ts

/-- The Python padding loop runs forever on `ts`. -/
def padDiverges (ts : List Char) : Prop := ∀ n, padLoopFuel n ts = none

/-! ## JSON values

The output of `json.loads` on one decompressed line.  Numbers are kept as
integers: the only numeric comparisons in the filter are equalities with
`302`/`303`, for which `float` and `int` values behave identically in
Python. -/

inductive Json where
  | null : Json
  | bool (b : Bool) : Json
  | num (n : Int) : Json
  | str (s : List Char) : Json
  | arr (elts : List Json) : Json
  | obj (fields : List (List Char × Json)) : Json

/-- Python truthiness (`if line_json`) of a parsed JSON value. -/
def jTruthy : Json → Bool
  | .null => false
  | .bool b => b
  | .num n => n ≠ 0
  | .str s => !s.isEmpty
  | .arr xs => !xs.isEmpty
  | .obj fs => !fs.isEmpty

/-- Python `v == element` where the left side is a JSON value and the
right side a string literal: only equal strings compare equal. -/
def jEqStr (v : Json) (k : List Char) : Bool :=
  match v with
  | .str s => s = k
  | _ => false

/-- Python `v == n` where the right side is an `int` literal: `int` (and
integral `float`) values compare by value, everything else is unequal. -/
def jEqNum (v : Json) (n : Int) : Bool :=
  match v with
  | .num m => m = n
  | _ => false

/-- Contiguous-substring test, Python `k in s` for strings. -/
def strContains (s k : List Char) : Bool :=
  (List.range (s.length + 1)).any (fun i => (s.drop i).take k.length = k)

/-- Python `k in v` for a string `k`: key membership for dicts, element
equality for lists, substring test for strings; `TypeError` (`none`)
otherwise. -/
def jMem (k : List Char) : Json → Option Bool
  | .obj fs => some (fs.any (fun p => p.1 = k))
  | .arr xs => some (xs.any (fun x => jEqStr x k))
  | .str s => some (strContains s k)
  | _ => none

/-- Python `v[k]` for a string `k`: dict lookup (`KeyError` → `none`), and
`TypeError` (`none`) on any non-dict. -/
def jIndex (v : Json) (k : List Char) : Option Json :=
  match v with
  | .obj fs => fs.lookup k
  | _ => none

/-- Short-circuiting Python `and` over possibly-raising operands. -/
def pyAnd (a : Option Bool) (b : Unit → Option Bool) : Option Bool :=
  match a with
  | none => none
  | some false => some false
  | some true => b ()

/-- Replacement of the value at a key in a parsed dict (Python in-place
assignment `line_json['timestamp'] = ...`; insertion order kept). -/
def setKey (fs : List (List Char × Json)) (k : List Char) (v : Json) :
    List (List Char × Json) :=
  fs.map (fun p => if p.1 = k then (k, v) else p)

def tsKey : List Char := "timestamp".data

def dataKey : List Char := "data".data

def winKey : List Char := "win".data

def eviKey : List Char := "eventInfo".data

def resKey : List Char := "resource".data

def sysKey : List Char := "system".data

def eidKey : List Char := "eventID".data

def mailLit : List Char := "test@mail.com".data

/-- The inclusion condition of the main loop (source lines 216-221),
evaluated left to right with Python `and` short-circuiting; `none` means
an exception escaped the expression (caught by the per-line handler):

```
event_date <= max_timestamp and event_date >= min_timestamp and
line_json and 'data' in line_json and
'win' in line_json['data'] and
'eventInfo' in line_json['data']['win'] and
'resource' in line_json['data']['win']['eventInfo'] and
line_json['data']['win']['eventInfo']['resource'] == "test@mail.com" and
'system' in line_json['data']['win'] and
'eventID' in line_json['data']['win']['system'] and
line_json['data']['win']['system']['eventID'] in [302, 303]
```
-/
def evalCond (minT maxT eventDate : PyDateTime) (j : Json) : Option Bool :=
  pyAnd (some (dtLe eventDate maxT)) fun _ =>
  pyAnd (some (dtLe minT eventDate)) fun _ =>
  pyAnd (some (jTruthy j)) fun _ =>
  pyAnd (jMem dataKey j) fun _ =>
  pyAnd (do jMem winKey (← jIndex j dataKey)) fun _ =>
  pyAnd (do jMem eviKey (← jIndex (← jIndex j dataKey) winKey)) fun _ =>
  pyAnd (do jMem resKey (← jIndex (← jIndex (← jIndex j dataKey) winKey) eviKey)) fun _ =>
  pyAnd (do
    let r ← jIndex (← jIndex (← jIndex (← jIndex j dataKey) winKey) eviKey) resKey
    some (jEqStr r mailLit)) fun _ =>
  pyAnd (do jMem sysKey (← jIndex (← jIndex j dataKey) winKey)) fun _ =>
  pyAnd (do jMem eidKey (← jIndex (← jIndex (← jIndex j dataKey) winKey) sysKey)) fun _ =>
  (do
    let v ← jIndex (← jIndex (← jIndex (← jIndex j dataKey) winKey) sysKey) eidKey
    some (jEqNum v 302 || jEqNum v 303))

/-- The spec-level nested-path lookup `data.win.eventInfo.resource`. -/
def resourcePath (j : Json) : Option Json := do
  jIndex (← jIndex (← jIndex (← jIndex j dataKey) winKey) eviKey) resKey

/-- The spec-level nested-path lookup `data.win.system.eventID`. -/
def eventIDPath (j : Json) : Option Json := do
  jIndex (← jIndex (← jIndex (← jIndex j dataKey) winKey) sysKey) eidKey

/-! ## Per-line processing

One iteration of `for line in gz` (source lines 201-245): JSON parse,
19-char prefix extraction, the padding loop, `strptime`, the filter
condition, and — on a match — the write.  A line arrives as `none` when
`json.loads` raises (malformed JSON); all exceptions of the body are
caught by the per-line handler (`err`), while a diverging padding loop
hangs the whole process (`diverge`). -/

inductive LineRes where
  | err : LineRes
  | diverge : LineRes
  | nomatch : LineRes
  | matched (r : Json) : LineRes

/-- Classify one line: which of the four outcomes the loop body reaches,
and (for a match) the record as written, with its padded timestamp. -/
def classifyLine (minT maxT : PyDateTime) (line : Option Json) : LineRes :=
  match line with
  | none => .err
  | some j =>
    match j with
    | .obj fs =>
      match List.lookup tsKey fs with
      | some (.str ts) =>
        let string_timestamp := ts.take 19
        match padTimestamp ts with
        | none => .diverge
        | some padded =>
          match parse19 string_timestamp with
          | none => .err
          | some eventDate =>
            let j2 := Json.obj (setKey fs tsKey (.str padded))
            match evalCond minT maxT eventDate j2 with
            | none => .err
            | some false => .nomatch
            | some true => .matched j2
      | _ => .err
    | _ => .err

/-! ## The rate-limited rotating sink and the day loop -/

/-- Pipeline configuration, as validated before the loop starts:
`EPS_MAX`, `max_bytes`, `min_timestamp`, `max_timestamp`. -/
structure Config where
  epsMax : Nat
  maxBytes : Nat
  minT : PyDateTime
  maxT : PyDateTime

/-- Observable events of the main loop, in program order. -/
inductive Ev where
  /-- A record was serialized, written to the output file and flushed. -/
  | wrote (r : Json) : Ev
  /-- `time.sleep(2)` of the events-per-second throttle. -/
  | paused (secs : ℚ) : Ev
  /-- `time.sleep(EPS_MAX/100)` of the size rotation. -/
  | cooldown (secs : ℚ) : Ev
  /-- The output file was closed and reopened with mode `'w'`. -/
  | truncated : Ev
  /-- `os.remove(tmp_filename)` after a day's processing. -/
  | removedTemp : Ev
  /-- A per-line error was logged and the line skipped. -/
  | skippedLine : Ev
  /-- The mid-stream exception handler of a day logged an error. -/
  | streamErrLogged : Ev
  /-- The day loop reached this date (`"Checking for: ..."`). -/
  | visited (y m d : Nat) : Ev

/-- Mutable state of the output sink: the bytes of the output file since
the last truncation, and the global `chunk` counter. -/
structure SinkSt where
  file : List Char
  chunk : Nat
deriving DecidableEq

/-- Source lines 223-241: `chunk += 1`, write + flush the serialized
record with a trailing newline, throttle when `chunk >= EPS_MAX`, then
rotate (truncate and cool down) when the file size reached `max_bytes`.
`ser` abstracts `json.dumps`. -/
def writeRecord (cfg : Config) (ser : Json → List Char) (s : SinkSt) (r : Json) :
    SinkSt × List Ev :=
  let chunk1 := s.chunk + 1
  let file1 := s.file ++ ser r ++ ['\n']
  let chunk2 := if cfg.epsMax ≤ chunk1 then 0 else chunk1
  let file2 := if cfg.maxBytes ≤ file1.length then [] else file1
  (⟨file2, chunk2⟩,
    Ev.wrote r ::
      ((if cfg.epsMax ≤ chunk1 then [Ev.paused 2] else []) ++
        (if cfg.maxBytes ≤ file1.length then
          [Ev.cooldown ((cfg.epsMax : ℚ) / 100), Ev.truncated]
        else [])))

/-- One line of the per-day loop: `none` when the body diverges, else the
new sink state, whether the day's counter was incremented, and the step's
events. -/
def stepLine (cfg : Config) (ser : Json → List Char) (s : SinkSt) (line : Option Json) :
    Option (SinkSt × Bool × List Ev) :=
  match classifyLine cfg.minT cfg.maxT line with
  | .diverge => none
  | .err => some (s, false, [Ev.skippedLine])
  | .nomatch => some (s, false, [])
  | .matched r =>
    let (s2, evs) := writeRecord cfg ser s r
    some (s2, true, evs)

/-- All lines of one day's decompressed object, threading the sink state
and the `daily_alerts` counter. -/
def runLines (cfg : Config) (ser : Json → List Char) :
    SinkSt → Nat → List (Option Json) → Option (SinkSt × Nat × List Ev)
  | s, daily, [] => some (s, daily, [])
  | s, daily, l :: rest =>
    match stepLine cfg ser s l with
    | none => none
    | some (s2, inc, evs) =>
      match runLines cfg ser s2 (if inc then daily + 1 else daily) rest with
      | none => none
      | some (s3, daily3, evs3) => some (s3, daily3, evs ++ evs3)

/-- What one day of the range presents to the driver.  `content` carries
the decompressed lines actually yielded (`none` entries are lines on
which `json.loads` raises) and whether the stream then aborted with an
exception caught at source line 246. -/
inductive DayInput where
  | absent : DayInput
  | headErr : DayInput
  | downloadFailed : DayInput
  | content (lines : List (Option Json)) (streamErr : Bool) : DayInput

/-- Source lines 174-253 for a single day: the `head_object` probe, the
verified download, the per-line loop, and the unconditional
`os.remove(tmp_filename)` for days whose download was verified. -/
def runDay (cfg : Config) (ser : Json → List Char) (s : SinkSt) :
    DayInput → Option (SinkSt × Nat × List Ev)
  | .absent => some (s, 0, [])
  | .headErr => some (s, 0, [])
  | .downloadFailed => some (s, 0, [])
  | .content lines streamErr =>
    match runLines cfg ser s 0 lines with
    | none => none
    | some (s2, daily, evs) =>
      some (s2, daily,
        evs ++ (if streamErr then [Ev.streamErrLogged] else []) ++ [Ev.removedTemp])

/-- The padding loop terminates on every line this day yields (otherwise
the process hangs inside the day). -/
def DayTerminates (cfg : Config) : DayInput → Prop
  | .content lines _ => ∀ l ∈ lines, classifyLine cfg.minT cfg.maxT l ≠ .diverge
  | _ => True

/-! ## Calendar dates and the day-range driver -/

structure Date where
  year : Nat
  month : Nat
  day : Nat
deriving DecidableEq, Repr

/-- A constructible calendar date (what `datetime(y, m, d)` accepts). -/
def ValidDate (d : Date) : Prop :=
  1 ≤ d.month ∧ d.month ≤ 12 ∧ 1 ≤ d.day ∧ d.day ≤ daysInMonth d.year d.month

instance (d : Date) : Decidable (ValidDate d) := by
  unfold ValidDate; infer_instance

/-- Strict comparison of the midnight `datetime`s the driver builds:
lexicographic on (year, month, day). -/
def dLt (a b : Date) : Prop :=
  a.year < b.year ∨
    (a.year = b.year ∧ (a.month < b.month ∨ (a.month = b.month ∧ a.day < b.day)))

instance (a b : Date) : Decidable (dLt a b) := by
  unfold dLt; infer_instance

/-- `current_time <= end_time` on the midnight `datetime`s. -/
def dLe (a b : Date) : Prop :=
  a.year < b.year ∨
    (a.year = b.year ∧ (a.month < b.month ∨ (a.month = b.month ∧ a.day ≤ b.day)))

instance (a b : Date) : Decidable (dLe a b) := by
  unfold dLe; infer_instance

/-- `current_time += timedelta(days=1)` on a valid calendar date. -/
def nextDay (d : Date) : Date :=
  if d.day < daysInMonth d.year d.month then ⟨d.year, d.month, d.day + 1⟩
  else if d.month < 12 then ⟨d.year, d.month + 1, 1⟩
  else ⟨d.year + 1, 1, 1⟩

/-- An index strictly increasing along `nextDay` on valid dates; used
only to bound the iteration count of the day loop. -/
def dayIdx (d : Date) : Nat := d.year * 404 + d.month * 31 + d.day

/-- The `while current_time <= end_time` loop, fuelled; `dateRange`
supplies fuel that is proved sufficient for valid dates. -/
def dateRangeAux (fin : Date) : Nat → Date → List Date
  | 0, _ => []
  | k + 1, cur => if dLe cur fin then cur :: dateRangeAux fin k (nextDay cur) else []

/-- The list of dates the driver visits, first to last. -/
def dateRange (cur fin : Date) : List Date :=
  dateRangeAux fin (dayIdx fin + 1 - dayIdx cur) cur

/-- `datetime(t.year, t.month, t.day)` (source lines 163-164). -/
def dateOf (t : PyDateTime) : Date := ⟨t.year, t.month, t.day⟩

/-- The driver over a list of dates: per day, visit it, process its
input, tally `(date, daily_alerts)`, and advance. -/
def runDays (cfg : Config) (ser : Json → List Char) (inputs : Date → DayInput) :
    SinkSt → List Date → Option (SinkSt × List (Date × Nat) × List Ev)
  | s, [] => some (s, [], [])
  | s, d :: ds =>
    match runDay cfg ser s (inputs d) with
    | none => none
    | some (s2, daily, evs) =>
      match runDays cfg ser inputs s2 ds with
      | none => none
      | some (s3, tally, evs3) =>
        some (s3, (d, daily) :: tally, (Ev.visited d.year d.month d.day :: evs) ++ evs3)

/-- `open(output_file, 'w')`: whatever the file held before, it is
truncated to zero length. -/
def openTruncate (_prior : List Char) : List Char := []

/-- The whole pipeline: open (truncating) the output file, then drive the
inclusive day range derived from the configured bounds.  `prior` is the
content the output path held before the run. -/
def runPipeline (cfg : Config) (ser : Json → List Char) (inputs : Date → DayInput)
    (prior : List Char) : Option (SinkSt × List (Date × Nat) × List Ev) :=
  runDays cfg ser inputs ⟨openTruncate prior, 0⟩
    (dateRange (dateOf cfg.minT) (dateOf cfg.maxT))

/-! ## The verified downloader (`download_and_verify`, source lines 94-154)

The object store is a function from the attempt number to that attempt's
behaviour: the `head_object` response (or exception) and the
`get_object`/streaming outcome.  MD5 is abstracted as a function from the
streamed bytes to a hex digest. -/

/-- Outcome of `get_object` plus the 1 MiB streaming copy on one attempt:
an exception in `get_object`, an exception mid-stream, or the bytes that
reached the temp file. -/
inductive FetchRes where
  | getErr : FetchRes
  | streamErr : FetchRes
  | ok (data : List Nat) : FetchRes

/-- One attempt's view of the store: `head = none` models an exception in
`head_object`; otherwise the reported `ContentLength` and raw `ETag`. -/
structure Attempt where
  head : Option (Nat × Option (List Char))
  fetch : FetchRes

/-- Python `s.strip('"')`: remove every leading and trailing `'"'`. -/
def stripQuotes (s : List Char) : List Char :=
  ((s.dropWhile (fun c => c = '"')).reverse.dropWhile (fun c => c = '"')).reverse

/-- The integrity token the verification step actually compares against:
`head_resp.get('ETag', None)`, quote-stripped when truthy.  `[]` encodes
a falsy token (absent or empty), for which the checksum check is
skipped. -/
def effectiveTag (raw : Option (List Char)) : List Char :=
  match raw with
  | none => []
  | some e => if e = [] then e else stripQuotes e

/-- Events of `download_and_verify`, in program order. -/
inductive DLEv where
  /-- `head_object` raised; the function logs and returns `None`. -/
  | headFailLogged : DLEv
  /-- `os.remove(tmp_filename)` after a failed verification. -/
  | removedTemp : DLEv
  /-- `time.sleep(2)` before the next attempt. -/
  | slept2 : DLEv

/-- The verification of one attempt succeeds: the streamed byte count
equals the HEAD `ContentLength` and, when a (truthy) integrity token is
present, the MD5 digest of the temp file equals it. -/
def attemptAccepts (md5 : List Nat → List Char) (a : Attempt) : Bool :=
  match a.head, a.fetch with
  | some (size, raw), .ok data =>
    data.length = size &&
      (effectiveTag raw = ([] : List Char) || effectiveTag raw = md5 data)
  | _, _ => false

/-- The attempt fails in a way the loop retries: `head_object` succeeded
but the fetch erred, the stream erred, or a verification mismatch. -/
def attemptSoftFails (md5 : List Nat → List Char) (a : Attempt) : Bool :=
  a.head.isSome && !attemptAccepts md5 a

/-- The attempt streamed fully but verification mismatched (length or
checksum); this is the path that removes the temp file. -/
def attemptMismatch (md5 : List Nat → List Char) (a : Attempt) : Bool :=
  match a.head, a.fetch with
  | some _, .ok _ => !attemptAccepts md5 a
  | _, _ => false

/-- The `for attempt in range(1, retry_attempts + 1)` loop over the
remaining attempt numbers.  Returns the verified bytes (standing for the
returned temp-file path) or `none`, plus the events. -/
def dlAttempts (md5 : List Nat → List Char) (att : Nat → Attempt) :
    List Nat → Option (List Nat) × List DLEv
  | [] => (none, [])
  | i :: rest =>
    match (att i).head with
    | none => (none, [DLEv.headFailLogged])
    | some (size, raw) =>
      match (att i).fetch with
      | .getErr =>
        let (r, evs) := dlAttempts md5 att rest
        (r, DLEv.slept2 :: evs)
      | .streamErr =>
        let (r, evs) := dlAttempts md5 att rest
        (r, DLEv.slept2 :: evs)
      | .ok data =>
        if data.length ≠ size then
          let (r, evs) := dlAttempts md5 att rest
          (r, DLEv.removedTemp :: DLEv.slept2 :: evs)
        else if effectiveTag raw ≠ ([] : List Char) ∧ effectiveTag raw ≠ md5 data then
          let (r, evs) := dlAttempts md5 att rest
          (r, DLEv.removedTemp :: DLEv.slept2 :: evs)
        else
          (some data, [])

/-- `download_and_verify`: three total attempts. -/
def download_and_verify (md5 : List Nat → List Char) (att : Nat → Attempt) :
    Option (List Nat) × List DLEv :=
  dlAttempts md5 att [1, 2, 3]

/-! ## Object-key derivation (source lines 32-33 and 169-172) -/

/-- `month_dict`, the fixed table indexed 1-12 (index 0 is a filler). -/
def month_dict : List (List Char) :=
  ["Null", "Jan", "Feb", "Mar", "Apr", "May", "Jun",
   "Jul", "Aug", "Sep", "Oct", "Nov", "Dec"].map String.data

/-- Little-endian base-10 digits, structurally recursive on a fuel bound
so that it reduces by evaluation (it agrees with `Nat.digits 10`). -/
def natDigitsAux : Nat → Nat → List Nat
  | 0, _ => []
  | fuel + 1, n => if n = 0 then [] else n % 10 :: natDigitsAux fuel (n / 10)

def natDigits (n : Nat) : List Nat := natDigitsAux n n

/-- Python `str(n)` for a non-negative integer: decimal digits. -/
def natStr (n : Nat) : List Char :=
  if n = 0 then ['0']
  else ((natDigits n).map (fun d => Char.ofNat (48 + d))).reverse

/-- Python `f"{d:02d}"` for a non-negative integer. -/
def pad2 (d : Nat) : List Char :=
  if d < 10 then '0' :: natStr d else natStr d

/-- `object_key = f"{year_str}/{month_str}/ossec-archive-{day_str}.json.gz"`. -/
def objectKey (y m d : Nat) : List Char :=
  natStr y ++ '/' :: (month_dict.getD m []) ++ '/' :: "ossec-archive-".data ++
    pad2 d ++ ".json.gz".data

/-- Decimal decoding of a digit string (left fold, leading zeros
ignored); inverse of `natStr`/`pad2` on their images. -/
def decodeDigits (cs : List Char) : Nat :=
  cs.foldl (fun a c => 10 * a + digitVal c) 0

/-- Recover `(year, month, day)` from an object key: year before the
first `'/'`, month abbreviation before the next `'/'` looked up in
`month_dict`, day digits between `"ossec-archive-"` and `".json.gz"`. -/
def parseKey (ks : List Char) : Nat × Nat × Nat :=
  let ypart := ks.takeWhile (fun c => c ≠ '/')
  let rest := ks.drop (ypart.length + 1)
  let mpart := rest.takeWhile (fun c => c ≠ '/')
  let rest2 := rest.drop (mpart.length + 1)
  let mid := rest2.drop 14
  let dpart := mid.take (mid.length - 8)
  (decodeDigits ypart, month_dict.indexOf mpart, decodeDigits dpart)

/-! ## Concrete instances used by witnesses and counterexamples -/

/-- A concrete single-byte serializer standing in for `json.dumps`. -/
def serOne : Json → List Char := fun _ => ['x']

/-- Window bounds `2024-01-01T00:00:00` / `2024-01-02T00:00:00`. -/
def dtMin : PyDateTime := ⟨2024, 1, 1, 0, 0, 0⟩

def dtMax : PyDateTime := ⟨2024, 1, 2, 0, 0, 0⟩

def dtNoon : PyDateTime := ⟨2024, 1, 1, 12, 0, 0⟩

/-- A sample configuration: `EPS_MAX = 10`, large size ceiling. -/
def cfgA : Config := ⟨10, 1000000, dtMin, dtMax⟩

/-- A sample configuration whose one-byte ceiling forces a rotation on
the first write. -/
def cfgB : Config := ⟨10, 1, dtMin, dtMax⟩

/-- A well-formed timestamp without fractional seconds: first `'+'` at
index 19, so the padding loop diverges on it. -/
def tsNoFrac : List Char := "2024-01-01T12:00:00+00:00".data

/-- The spec's example timestamp; pre-`'+'` length 26, no padding. -/
def tsFrac : List Char := "2024-01-01T12:00:00.123456+00:00".data

/-- A string timestamp that does not parse and whose padding loop
diverges (first `'+'` at index 3). -/
def tsBad : List Char := "bad+time".data

/-- The nested payload matching all field conditions. -/
def payloadMatch : Json :=
  .obj [(winKey, .obj
    [(eviKey, .obj [(resKey, .str mailLit)]),
     (sysKey, .obj [(eidKey, .num 302)])])]

/-- A record meeting every inclusion condition whose timestamp makes the
padding loop diverge. -/
def recDiverge : Json := .obj [(tsKey, .str tsNoFrac), (dataKey, payloadMatch)]

/-- A record meeting every inclusion condition, fractional timestamp. -/
def recGood : Json := .obj [(tsKey, .str tsFrac), (dataKey, payloadMatch)]

/-- A record with eventID 500: all paths present, condition fails. -/
def recWrongId : Json :=
  .obj [(tsKey, .str tsFrac), (dataKey, .obj
    [(winKey, .obj
      [(eviKey, .obj [(resKey, .str mailLit)]),
       (sysKey, .obj [(eidKey, .num 500)])])])]

/-- A record whose timestamp neither parses nor lets the padder halt. -/
def recBadTs : Json := .obj [(tsKey, .str tsBad)]

/-- A record whose timestamp is missing. -/
def recNoTs : Json := .obj [(dataKey, .num 1)]

/-- Every intermediate node of the two filtered paths is either absent or
a JSON object, so path lookups can fail only by absence (the silent
non-match case), never with a `TypeError`. -/
def objOrAbsent : Option Json → Prop
  | none => True
  | some (.obj _) => True
  | some _ => False

/-- Computable test for the diverging outcome (used to discharge
termination side conditions on concrete inputs). -/
def isDivergeB : LineRes → Bool
  | .diverge => true
  | _ => false

/-- A concrete hash stub (no ETag is present in the scenario using it). -/
def md5Nil : List Nat → List Char := fun _ => []

/-- The spec's store-double: HEAD reports a wrong length (5) on attempts
1 and 2 and the correct length on attempt 3; the body is always the same
three bytes and no ETag is supplied. -/
def attWWR : Nat → Attempt := fun i =>
  if i = 3 then ⟨some (3, none), .ok [1, 2, 3]⟩
  else ⟨some (5, none), .ok [1, 2, 3]⟩

def WellNested (j : Json) : Prop :=
  objOrAbsent (jIndex j dataKey) ∧
  objOrAbsent ((jIndex j dataKey).bind fun v => jIndex v winKey) ∧
  objOrAbsent (((jIndex j dataKey).bind fun v => jIndex v winKey).bind
    fun v => jIndex v eviKey) ∧
  objOrAbsent (((jIndex j dataKey).bind fun v => jIndex v winKey).bind
    fun v => jIndex v sysKey)

/-! # Theorems

First general lemmas about the embedding, then one theorem per claim. -/

/-! ## The padding loop: exactness of the fuel -/

theorem preLen_cons (c : Char) (ts : List Char) :
    preLen (c :: ts) = if c = '+' then 0 else preLen ts + 1 := by
  by_cases h : c = '+' <;> simp [preLen, List.takeWhile_cons, h]

theorem preLen_le (ts : List Char) : preLen ts ≤ ts.length := by
  unfold preLen
  exact (List.takeWhile_sublist _).length_le

theorem length_pad1 (ts : List Char) : (pad1 ts).length = ts.length + 1 := by
  simp [pad1]
  omega

/-- Effect of inserting `'0'` at position `n` on the length of the
pre-`'+'` prefix: unchanged when the first `'+'` sits strictly before the
insertion point, grown by one otherwise. -/
theorem preLen_insert (ts : List Char) (n : Nat) :
    preLen (ts.take n ++ '0' :: ts.drop n) =
      if preLen ts < n ∧ preLen ts < ts.length then preLen ts else preLen ts + 1 := by
  induction ts generalizing n with
  | nil =>
    simp only [List.take_nil, List.drop_nil, List.nil_append, List.length_nil]
    rw [preLen_cons]
    simp [preLen]
  | cons c tl ih =>
    cases n with
    | zero =>
      simp only [List.take_zero, List.drop_zero, List.nil_append]
      rw [preLen_cons]
      simp
    | succ m =>
      simp only [List.take_succ_cons, List.drop_succ_cons, List.cons_append, List.length_cons]
      rw [preLen_cons, preLen_cons]
      by_cases h : c = '+'
      · simp [h]
      · simp only [h, if_false]
        rw [ih m]
        split_ifs <;> omega

theorem padLoopFuel_eq_none (n : Nat) (ts : List Char)
    (h1 : preLen ts < 20) (h2 : preLen ts < ts.length) :
    padLoopFuel n ts = none := by
  induction n generalizing ts with
  | zero =>
    unfold padLoopFuel
    rw [if_pos (by omega)]
  | succ k ih =>
    unfold padLoopFuel
    rw [if_pos (by omega)]
    have hp : preLen (pad1 ts) = preLen ts := by
      rw [pad1, preLen_insert, if_pos ⟨by omega, h2⟩]
    exact ih (pad1 ts) (by omega) (by rw [hp, length_pad1]; omega)

theorem padLoopFuel_eq_some (k : Nat) (ts : List Char)
    (hinv : preLen ts = ts.length ∨ 20 ≤ preLen ts)
    (hfuel : 23 - preLen ts ≤ k) :
    ∃ r, padLoopFuel k ts = some r ∧ preLen r = max (preLen ts) 23 ∧
      (19 ≤ ts.length → r.take 19 = ts.take 19) := by
  induction k generalizing ts with
  | zero =>
    refine ⟨ts, ?_, by omega, fun _ => rfl⟩
    unfold padLoopFuel
    rw [if_neg (by omega)]
  | succ n ih =>
    by_cases h : preLen ts < 23
    · have hp : preLen (pad1 ts) = preLen ts + 1 := by
        rw [pad1, preLen_insert, if_neg (by rcases hinv with h2 | h2 <;> omega)]
      have hinv2 : preLen (pad1 ts) = (pad1 ts).length ∨ 20 ≤ preLen (pad1 ts) := by
        rw [hp, length_pad1]
        rcases hinv with h2 | h2 <;> omega
      obtain ⟨r, hr, hpre, htake⟩ := ih (pad1 ts) hinv2 (by rw [hp]; omega)
      refine ⟨r, ?_, by rw [hpre, hp]; omega, ?_⟩
      · unfold padLoopFuel
        rw [if_pos h]
        exact hr
      · intro hlen
        rw [htake (by rw [length_pad1]; omega), pad1,
          List.take_append_of_le_length (by rw [List.length_take]; omega), List.take_take]
        norm_num
    · refine ⟨ts, ?_, by omega, fun _ => rfl⟩
      unfold padLoopFuel
      rw [if_neg h]

theorem padTimestamp_eq_none_iff (ts : List Char) :
    padTimestamp ts = none ↔ preLen ts < 20 ∧ preLen ts < ts.length := by
  constructor
  · intro h
    by_contra hc
    have hle := preLen_le ts
    obtain ⟨r, hr, -, -⟩ := padLoopFuel_eq_some 23 ts (by omega) (by omega)
    rw [padTimestamp, hr] at h
    cases h
  · intro h
    exact padLoopFuel_eq_none 23 ts h.1 h.2

theorem padDiverges_iff (ts : List Char) : padDiverges ts ↔ padTimestamp ts = none := by
  constructor
  · intro h
    exact h 23
  · intro h n
    rw [padTimestamp_eq_none_iff] at h
    exact padLoopFuel_eq_none n ts h.1 h.2

/-- C3 (amended): for every record whose timestamp field is a string
whose pre-`'+'` portion has fewer than 23 characters, and in which the
first `'+'` — if there is one — occurs at index ≥ 20, the in-place
normalization loop terminates, leaving the pre-`'+'` portion exactly 23
characters wide, and (whenever the string had at least 19 characters) it
never alters the 19-character prefix that was already extracted for the
time-window comparison. -/
theorem claim_C3 (ts : List Char)
    (h1 : preLen ts < 23)
    (h2 : preLen ts = ts.length ∨ 20 ≤ preLen ts) :
    ∃ r, padTimestamp ts = some r ∧ preLen r = 23 ∧
      (19 ≤ ts.length → r.take 19 = ts.take 19) := by
  obtain ⟨r, hr, hpre, htake⟩ := padLoopFuel_eq_some 23 ts h2 (by omega)
  exact ⟨r, hr, by omega, htake⟩

/-- C3 witness: the spec's own example `"2024-01-01T12:00:00.1+00:00"`
(pre-`'+'` length 21) is padded to pre-`'+'` width exactly 23 with its
19-character prefix intact. -/
theorem claim_C3_witness :
    preLen "2024-01-01T12:00:00.1+00:00".data < 23 ∧
      ∃ r, padTimestamp "2024-01-01T12:00:00.1+00:00".data = some r ∧ preLen r = 23 ∧
        (19 ≤ "2024-01-01T12:00:00.1+00:00".data.length →
          r.take 19 = "2024-01-01T12:00:00.1+00:00".data.take 19) :=
  ⟨by decide, claim_C3 _ (by decide) (Or.inr (by decide))⟩

/-- C3 counterexample: the claim promises termination for every string
timestamp, but on `"2024-01-01T12:00:00+00:00"` — a well-formed ISO-8601
timestamp without fractional seconds, whose first `'+'` sits at index
19 — the loop inserts each `'0'` after the `'+'`, the pre-`'+'` portion
stays 19 characters long forever, and the loop never terminates. -/
theorem claim_C3_counterexample :
    padDiverges "2024-01-01T12:00:00+00:00".data :=
  fun n => padLoopFuel_eq_none n _ (by decide) (by decide)

/-! ## The filter condition: lemmas -/

theorem optBind_eq_some {α β : Type} (x : Option α) (f : α → Option β) (b : β) :
    (x >>= f) = some b ↔ ∃ a, x = some a ∧ f a = some b := by
  cases x <;> simp

theorem pyAnd_eq_some_true (a : Option Bool) (f : Unit → Option Bool) :
    pyAnd a f = some true ↔ a = some true ∧ f () = some true := by
  rcases a with _ | b
  · simp [pyAnd]
  · cases b <;> simp [pyAnd]

theorem any_key_eq (fs : List (List Char × Json)) (k : List Char) :
    (fs.any fun p => p.1 = k) = (List.lookup k fs).isSome := by
  induction fs with
  | nil => simp
  | cons p tl ih =>
    rcases p with ⟨k2, v⟩
    by_cases h : k2 = k
    · subst h
      simp [List.lookup]
    · have hb : (k == k2) = false := beq_eq_false_iff_ne.mpr (Ne.symm h)
      simp [List.lookup, h, ih, hb]

theorem setKey_cons (a : List Char) (b : Json) (tl : List (List Char × Json))
    (k : List Char) (v : Json) :
    setKey ((a, b) :: tl) k v = (if a = k then (k, v) else (a, b)) :: setKey tl k v := rfl

theorem lookup_setKey_ne (fs : List (List Char × Json)) (k k2 : List Char) (v : Json)
    (h : k ≠ k2) : List.lookup k (setKey fs k2 v) = List.lookup k fs := by
  induction fs with
  | nil => rfl
  | cons p tl ih =>
    rcases p with ⟨k3, w⟩
    rw [setKey_cons]
    by_cases h3 : k3 = k2
    · subst h3
      rw [if_pos rfl]
      have hb : (k == k3) = false := beq_eq_false_iff_ne.mpr h
      simp [List.lookup, hb, ih]
    · rw [if_neg h3]
      by_cases hk : k = k3
      · subst hk
        simp [List.lookup]
      · have hb : (k == k3) = false := beq_eq_false_iff_ne.mpr hk
        simp [List.lookup, hb, ih]

theorem isEmpty_setKey (fs : List (List Char × Json)) (k : List Char) (v : Json) :
    (setKey fs k v).isEmpty = fs.isEmpty := by
  cases fs <;> simp [setKey]

theorem someBind {α β : Type} (a : α) (f : α → Option β) :
    (some a : Option α) >>= f = f a := rfl

theorem jMem_obj_eq_some_true (g : List (List Char × Json)) (k : List Char) (x : Json)
    (h : List.lookup k g = some x) : jMem k (Json.obj g) = some true := by
  simp only [jMem, any_key_eq, h, Option.isSome_some]

theorem jIndex_some_obj {v : Json} {k : List Char} {x : Json} (h : jIndex v k = some x) :
    ∃ g, v = Json.obj g ∧ List.lookup k g = some x := by
  cases v
  case obj g => exact ⟨g, rfl, h⟩
  all_goals simp [jIndex] at h

theorem jIndex_setKey_data (fs : List (List Char × Json)) (v : Json) :
    jIndex (Json.obj (setKey fs tsKey v)) dataKey = jIndex (Json.obj fs) dataKey := by
  simp only [jIndex]
  exact lookup_setKey_ne fs dataKey tsKey v (by decide)

theorem jMem_setKey_data (fs : List (List Char × Json)) (v : Json) :
    jMem dataKey (Json.obj (setKey fs tsKey v)) = jMem dataKey (Json.obj fs) := by
  simp only [jMem, any_key_eq]
  rw [lookup_setKey_ne fs dataKey tsKey v (by decide)]

theorem jTruthy_setKey (fs : List (List Char × Json)) (k : List Char) (v : Json) :
    jTruthy (Json.obj (setKey fs k v)) = jTruthy (Json.obj fs) := by
  simp only [jTruthy, isEmpty_setKey]

theorem evalCond_setKey_ts (minT maxT d : PyDateTime) (fs : List (List Char × Json))
    (v : Json) :
    evalCond minT maxT d (.obj (setKey fs tsKey v)) = evalCond minT maxT d (.obj fs) := by
  simp only [evalCond, jIndex_setKey_data, jMem_setKey_data, jTruthy_setKey]

theorem resourcePath_setKey_ts (fs : List (List Char × Json)) (v : Json) :
    resourcePath (.obj (setKey fs tsKey v)) = resourcePath (.obj fs) := by
  simp only [resourcePath, jIndex_setKey_data]

theorem eventIDPath_setKey_ts (fs : List (List Char × Json)) (v : Json) :
    eventIDPath (.obj (setKey fs tsKey v)) = eventIDPath (.obj fs) := by
  simp only [eventIDPath, jIndex_setKey_data]

/-- The inclusion condition evaluates to Python `True` exactly when the
three spec-level conditions hold: timestamp within the window, resource
path equal to the literal, eventID path equal to 302 or 303. -/
theorem evalCond_eq_some_true_iff (minT maxT d : PyDateTime)
    (fs : List (List Char × Json)) (hne : fs ≠ []) :
    evalCond minT maxT d (.obj fs) = some true ↔
      (dtLe minT d = true ∧ dtLe d maxT = true ∧
        resourcePath (.obj fs) = some (.str mailLit) ∧
        (eventIDPath (.obj fs) = some (.num 302) ∨
          eventIDPath (.obj fs) = some (.num 303))) := by
  constructor
  · intro h
    simp only [evalCond, pyAnd_eq_some_true, Option.some.injEq] at h
    obtain ⟨h1, h2, -, -, -, -, -, h8, -, -, h11⟩ := h
    refine ⟨h2, h1, ?_, ?_⟩
    · simp only [optBind_eq_some, Option.some.injEq] at h8
      obtain ⟨v1, hv1, v2, hv2, v3, hv3, r, hr, hEq⟩ := h8
      cases r <;> simp [jEqStr] at hEq
      case str s =>
        subst hEq
        simp only [resourcePath, optBind_eq_some]
        exact ⟨v1, hv1, v2, hv2, v3, hv3, hr⟩
    · simp only [optBind_eq_some, Option.some.injEq] at h11
      obtain ⟨v1, hv1, v2, hv2, v4, hv4, w, hw, hEq⟩ := h11
      cases w <;> simp [jEqNum] at hEq
      case num n =>
        rcases hEq with hEq | hEq <;> subst hEq
        · exact Or.inl (by
            simp only [eventIDPath, optBind_eq_some]
            exact ⟨v1, hv1, v2, hv2, v4, hv4, hw⟩)
        · exact Or.inr (by
            simp only [eventIDPath, optBind_eq_some]
            exact ⟨v1, hv1, v2, hv2, v4, hv4, hw⟩)
  · rintro ⟨hA, hB, hres, heid⟩
    simp only [resourcePath, optBind_eq_some] at hres
    obtain ⟨v1, hv1, v2, hv2, v3, hv3, hr⟩ := hres
    have heid2 : ∃ w1 w2 v4 w, jIndex (Json.obj fs) dataKey = some w1 ∧
        jIndex w1 winKey = some w2 ∧ jIndex w2 sysKey = some v4 ∧
        jIndex v4 eidKey = some w ∧ (w = Json.num 302 ∨ w = Json.num 303) := by
      rcases heid with h | h <;>
        · simp only [eventIDPath, optBind_eq_some] at h
          obtain ⟨a, ha, b, hb, c, hc, h⟩ := h
          exact ⟨a, b, c, _, ha, hb, hc, h, by simp⟩
    obtain ⟨w1, w2, v4, w, hw1, hw2, hv4, hweid, hwval⟩ := heid2
    rw [hv1] at hw1
    injection hw1 with hw1e
    subst hw1e
    rw [hv2] at hw2
    injection hw2 with hw2e
    subst hw2e
    obtain ⟨g1, rfl, hg1⟩ := jIndex_some_obj hv2
    obtain ⟨g2, rfl, hg2⟩ := jIndex_some_obj hv3
    obtain ⟨g3, rfl, hg3⟩ := jIndex_some_obj hr
    obtain ⟨g4, rfl, hg4⟩ := jIndex_some_obj hweid
    have hv1l : List.lookup dataKey fs = some (Json.obj g1) := hv1
    have hv4l : List.lookup sysKey g2 = some (Json.obj g4) := hv4
    simp only [evalCond, pyAnd_eq_some_true, Option.some.injEq]
    refine ⟨hB, hA, ?_, ?_, ?_, ?_, ?_, ?_, ?_, ?_, ?_⟩
    · cases fs with
      | nil => exact absurd rfl hne
      | cons a tl => rfl
    · exact jMem_obj_eq_some_true fs dataKey _ hv1l
    · rw [hv1, someBind]
      exact jMem_obj_eq_some_true g1 winKey _ hg1
    · rw [hv1, someBind, hv2, someBind]
      exact jMem_obj_eq_some_true g2 eviKey _ hg2
    · rw [hv1, someBind, hv2, someBind, hv3, someBind]
      exact jMem_obj_eq_some_true g3 resKey _ hg3
    · rw [hv1, someBind, hv2, someBind, hv3, someBind, hr,
        someBind]
      simp [jEqStr]
    · rw [hv1, someBind, hv2, someBind]
      exact jMem_obj_eq_some_true g2 sysKey _ hv4l
    · rw [hv1, someBind, hv2, someBind, hv4, someBind]
      exact jMem_obj_eq_some_true g4 eidKey _ hg4
    · rw [hv1, someBind, hv2, someBind, hv4, someBind, hweid,
        someBind]
      rcases hwval with rfl | rfl <;> simp [jEqNum]

theorem pyAnd_isSome_iff (a : Bool) (f : Unit → Option Bool) :
    (pyAnd (some a) f).isSome = true ↔ (a = true → (f ()).isSome = true) := by
  cases a <;> simp [pyAnd]

/-- In a record whose filtered paths are absent-or-object, the inclusion
condition never raises: it evaluates to Python `True` or `False`. -/
theorem evalCond_isSome_of_wellNested (minT maxT d : PyDateTime)
    (fs : List (List Char × Json)) (h : WellNested (Json.obj fs)) :
    (evalCond minT maxT d (Json.obj fs)).isSome = true := by
  obtain ⟨hw1, hw2, hw3, hw4⟩ := h
  simp only [jIndex] at hw1 hw2 hw3 hw4
  rcases hd : List.lookup dataKey fs with _ | v1
  · simp only [evalCond, pyAnd_isSome_iff, jMem, jIndex, any_key_eq, someBind,
      Option.none_bind, Option.isSome_none, Option.isSome_some, Bool.false_eq_true,
      false_implies, implies_true, eq_self_iff_true, true_implies, hd]
  · rw [hd] at hw1 hw2 hw3 hw4
    simp only [Option.some_bind] at hw2 hw3 hw4
    cases v1
    case null => exact hw1.elim
    case bool b => exact hw1.elim
    case num n => exact hw1.elim
    case str s => exact hw1.elim
    case arr xs => exact hw1.elim
    case obj g1 =>
      simp only [jIndex] at hw2 hw3 hw4
      rcases hwin : List.lookup winKey g1 with _ | v2
      · simp only [evalCond, pyAnd_isSome_iff, jMem, jIndex, any_key_eq, someBind,
          Option.none_bind, Option.isSome_none, Option.isSome_some, Bool.false_eq_true,
          false_implies, implies_true, eq_self_iff_true, true_implies, hd, hwin]
      · rw [hwin] at hw2 hw3 hw4
        simp only [Option.some_bind] at hw3 hw4
        cases v2
        case null => exact hw2.elim
        case bool b => exact hw2.elim
        case num n => exact hw2.elim
        case str s => exact hw2.elim
        case arr xs => exact hw2.elim
        case obj g2 =>
          simp only [jIndex] at hw3 hw4
          rcases he : List.lookup eviKey g2 with _ | v3
          · simp only [evalCond, pyAnd_isSome_iff, jMem, jIndex, any_key_eq, someBind,
              Option.none_bind, Option.isSome_none, Option.isSome_some, Bool.false_eq_true,
              false_implies, implies_true, eq_self_iff_true, true_implies, hd, hwin, he]
          · rw [he] at hw3
            cases v3
            case null => exact hw3.elim
            case bool b => exact hw3.elim
            case num n => exact hw3.elim
            case str s => exact hw3.elim
            case arr xs => exact hw3.elim
            case obj g3 =>
              rcases hr : List.lookup resKey g3 with _ | r
              · simp only [evalCond, pyAnd_isSome_iff, jMem, jIndex, any_key_eq, someBind,
                  Option.none_bind, Option.isSome_none, Option.isSome_some,
                  Bool.false_eq_true, false_implies, implies_true, eq_self_iff_true,
                  true_implies, hd, hwin, he, hr]
              · rcases hs : List.lookup sysKey g2 with _ | v4
                · simp only [evalCond, pyAnd_isSome_iff, jMem, jIndex, any_key_eq, someBind,
                    Option.none_bind, Option.isSome_none, Option.isSome_some,
                    Bool.false_eq_true, false_implies, implies_true, eq_self_iff_true,
                    true_implies, hd, hwin, he, hr, hs]
                · rw [hs] at hw4
                  cases v4
                  case null => exact hw4.elim
                  case bool b => exact hw4.elim
                  case num n => exact hw4.elim
                  case str s => exact hw4.elim
                  case arr xs => exact hw4.elim
                  case obj g4 =>
                    rcases hid : List.lookup eidKey g4 with _ | w <;>
                      simp only [evalCond, pyAnd_isSome_iff, jMem, jIndex, any_key_eq,
                        someBind, Option.none_bind, Option.isSome_none, Option.isSome_some,
                        Bool.false_eq_true, false_implies, implies_true, eq_self_iff_true,
                        true_implies, hd, hwin, he, hr, hs, hid]

theorem wellNested_setKey_ts (fs : List (List Char × Json)) (v : Json) :
    WellNested (Json.obj (setKey fs tsKey v)) = WellNested (Json.obj fs) := by
  unfold WellNested
  rw [jIndex_setKey_data]

/-- Reduction of `classifyLine` on a record with a string timestamp whose
padding terminates and whose 19-char prefix parses. -/
theorem classifyLine_obj (minT maxT : PyDateTime) (fs : List (List Char × Json))
    (ts padded : List Char) (d : PyDateTime)
    (hts : List.lookup tsKey fs = some (.str ts))
    (hpad : padTimestamp ts = some padded)
    (hparse : parse19 (ts.take 19) = some d) :
    classifyLine minT maxT (some (.obj fs)) =
      match evalCond minT maxT d (Json.obj (setKey fs tsKey (.str padded))) with
      | none => LineRes.err
      | some false => LineRes.nomatch
      | some true => LineRes.matched (Json.obj (setKey fs tsKey (.str padded))) := by
  simp only [classifyLine, hts, hpad, hparse]

/-- C1 (amended): for every decompressed line that parses as JSON whose
string timestamp's 19-character prefix parses as a naive date-time, and
whose timestamp-padding loop terminates (`padTimestamp` returns a value,
i.e. the first `'+'` — if the pre-`'+'` prefix is shorter than 23 — sits
at index ≥ 20), the record is included (written to the sink and counted,
with its padded timestamp) if and only if all three conditions hold:
`minTimestamp ≤ parsedTimestamp ≤ maxTimestamp` (both inclusive),
`data.win.eventInfo.resource` exists and equals `"test@mail.com"`, and
`data.win.system.eventID` exists with value 302 or 303.  When the
conditions fail, the sink state and counters are unchanged and the line
is skipped without aborting; when moreover each node of the two nested
paths is absent-or-object, the failure is a silent non-match, not an
error. -/
theorem claim_C1 (cfg : Config) (ser : Json → List Char) (s : SinkSt)
    (fs : List (List Char × Json)) (ts padded : List Char) (d : PyDateTime)
    (hts : List.lookup tsKey fs = some (.str ts))
    (hpad : padTimestamp ts = some padded)
    (hparse : parse19 (ts.take 19) = some d) :
    (stepLine cfg ser s (some (.obj fs)) =
        some ((writeRecord cfg ser s (Json.obj (setKey fs tsKey (.str padded)))).1, true,
          (writeRecord cfg ser s (Json.obj (setKey fs tsKey (.str padded)))).2) ↔
      (dtLe cfg.minT d = true ∧ dtLe d cfg.maxT = true ∧
        resourcePath (Json.obj fs) = some (.str mailLit) ∧
        (eventIDPath (Json.obj fs) = some (.num 302) ∨
          eventIDPath (Json.obj fs) = some (.num 303)))) ∧
    (¬ (dtLe cfg.minT d = true ∧ dtLe d cfg.maxT = true ∧
        resourcePath (Json.obj fs) = some (.str mailLit) ∧
        (eventIDPath (Json.obj fs) = some (.num 302) ∨
          eventIDPath (Json.obj fs) = some (.num 303))) →
      (∃ evs, stepLine cfg ser s (some (.obj fs)) = some (s, false, evs)) ∧
      (WellNested (Json.obj fs) →
        stepLine cfg ser s (some (.obj fs)) = some (s, false, []))) := by
  have hne : fs ≠ [] := by
    rintro rfl
    simp [List.lookup] at hts
  have hne2 : setKey fs tsKey (Json.str padded) ≠ [] := by
    cases fs with
    | nil => exact absurd rfl hne
    | cons a tl => simp [setKey]
  have hchar := classifyLine_obj cfg.minT cfg.maxT fs ts padded d hts hpad hparse
  have hiff := evalCond_eq_some_true_iff cfg.minT cfg.maxT d
    (setKey fs tsKey (Json.str padded)) hne2
  rw [resourcePath_setKey_ts, eventIDPath_setKey_ts] at hiff
  constructor
  · constructor
    · intro h
      rcases hev : evalCond cfg.minT cfg.maxT d
          (Json.obj (setKey fs tsKey (Json.str padded))) with _ | b
      · rw [stepLine, hchar, hev] at h
        simp at h
      · cases b
        · rw [stepLine, hchar, hev] at h
          simp at h
        · exact hiff.mp hev
    · intro hc
      have hev := hiff.mpr hc
      rw [stepLine, hchar, hev]
  · intro hc
    have hnev : evalCond cfg.minT cfg.maxT d
        (Json.obj (setKey fs tsKey (Json.str padded))) ≠ some true :=
      fun h => hc (hiff.mp h)
    constructor
    · rcases hev : evalCond cfg.minT cfg.maxT d
          (Json.obj (setKey fs tsKey (Json.str padded))) with _ | b
      · exact ⟨[Ev.skippedLine], by rw [stepLine, hchar, hev]⟩
      · cases b
        · exact ⟨[], by rw [stepLine, hchar, hev]⟩
        · exact absurd hev hnev
    · intro hwn
      have hwn2 : WellNested (Json.obj (setKey fs tsKey (Json.str padded))) := by
        rw [wellNested_setKey_ts]
        exact hwn
      have his := evalCond_isSome_of_wellNested cfg.minT cfg.maxT d
        (setKey fs tsKey (Json.str padded)) hwn2
      rcases hev : evalCond cfg.minT cfg.maxT d
          (Json.obj (setKey fs tsKey (Json.str padded))) with _ | b
      · rw [hev] at his
        simp at his
      · cases b
        · rw [stepLine, hchar, hev]
        · exact absurd hev hnev

/-- C1 witness: a record with timestamp
`"2024-01-01T12:00:00.123456+00:00"`, resource `"test@mail.com"` and
eventID 302, inside the window `[2024-01-01T00:00:00,
2024-01-02T00:00:00]`, is written to the sink and counted. -/
theorem claim_C1_witness :
    stepLine cfgA serOne ⟨[], 0⟩ (some recGood) =
      some ((writeRecord cfgA serOne ⟨[], 0⟩ recGood).1, true,
        (writeRecord cfgA serOne ⟨[], 0⟩ recGood).2) := by
  have h := (claim_C1 cfgA serOne ⟨[], 0⟩
    [(tsKey, Json.str tsFrac), (dataKey, payloadMatch)] tsFrac tsFrac dtNoon
    (by rfl) (by rfl) (by rfl)).1.mpr
    ⟨by decide, by decide, by rfl, Or.inl (by rfl)⟩
  exact h

/-- C1 counterexample: this record satisfies the claim's hypotheses (it
parses as JSON and its 19-character timestamp prefix parses) and all
three inclusion conditions, yet it is not included — its timestamp
`"2024-01-01T12:00:00+00:00"` makes the padding loop diverge, so the
per-line processing hangs and `runLines` never produces a result. -/
theorem claim_C1_counterexample :
    dtLe dtMin dtNoon = true ∧ dtLe dtNoon dtMax = true ∧
    resourcePath recDiverge = some (.str mailLit) ∧
    eventIDPath recDiverge = some (.num 302) ∧
    parse19 (tsNoFrac.take 19) = some dtNoon ∧
    classifyLine dtMin dtMax (some recDiverge) = .diverge ∧
    padDiverges tsNoFrac ∧
    runLines cfgA serOne ⟨[], 0⟩ 0 [some recDiverge] = none := by
  refine ⟨by decide, by decide, by rfl, by rfl, by rfl, by rfl, ?_, by rfl⟩
  exact fun n => padLoopFuel_eq_none n _ (by decide) (by decide)

/-! ## The sink: rotation and throttle -/

theorem runLines_cons_none (cfg : Config) (ser : Json → List Char) (s : SinkSt)
    (daily : Nat) (l : Option Json) (rest : List (Option Json))
    (h : stepLine cfg ser s l = none) :
    runLines cfg ser s daily (l :: rest) = none := by
  simp only [runLines, h]

theorem runLines_cons_mid_none (cfg : Config) (ser : Json → List Char) (s : SinkSt)
    (daily : Nat) (l : Option Json) (rest : List (Option Json))
    (s2 : SinkSt) (inc : Bool) (evs : List Ev)
    (h1 : stepLine cfg ser s l = some (s2, inc, evs))
    (h2 : runLines cfg ser s2 (if inc then daily + 1 else daily) rest = none) :
    runLines cfg ser s daily (l :: rest) = none := by
  simp only [runLines, h1, h2]

theorem runLines_cons_some (cfg : Config) (ser : Json → List Char) (s : SinkSt)
    (daily : Nat) (l : Option Json) (rest : List (Option Json))
    (s2 : SinkSt) (inc : Bool) (evs : List Ev)
    (s3 : SinkSt) (d3 : Nat) (e3 : List Ev)
    (h1 : stepLine cfg ser s l = some (s2, inc, evs))
    (h2 : runLines cfg ser s2 (if inc then daily + 1 else daily) rest =
      some (s3, d3, e3)) :
    runLines cfg ser s daily (l :: rest) = some (s3, d3, evs ++ e3) := by
  simp only [runLines, h1, h2]

/-- C5 (as claimed): a write-and-flush that brings the output file's size
to at least the byte ceiling closes the handle and reopens the same path
in truncate mode — the file is empty afterwards, all previously written
content discarded — with a cooldown sleep of `EPS_MAX/100` seconds as
part of the rotation; below the ceiling nothing is truncated and the
written content stays; and the size check happens only immediately after
a write: a non-matching or erroring line never changes the file and never
rotates. -/
theorem claim_C5 (cfg : Config) (ser : Json → List Char) (s : SinkSt) (r : Json) :
    (cfg.maxBytes ≤ (s.file ++ ser r ++ ['\n']).length →
      (writeRecord cfg ser s r).1.file = [] ∧
      Ev.truncated ∈ (writeRecord cfg ser s r).2 ∧
      Ev.cooldown ((cfg.epsMax : ℚ) / 100) ∈ (writeRecord cfg ser s r).2) ∧
    ((s.file ++ ser r ++ ['\n']).length < cfg.maxBytes →
      (writeRecord cfg ser s r).1.file = s.file ++ ser r ++ ['\n'] ∧
      Ev.truncated ∉ (writeRecord cfg ser s r).2 ∧
      ∀ q, Ev.cooldown q ∉ (writeRecord cfg ser s r).2) ∧
    (∀ line, classifyLine cfg.minT cfg.maxT line ≠ LineRes.diverge →
      (∀ rec, classifyLine cfg.minT cfg.maxT line ≠ LineRes.matched rec) →
      ∃ evs, stepLine cfg ser s line = some (s, false, evs) ∧
        Ev.truncated ∉ evs ∧ ∀ q, Ev.cooldown q ∉ evs) := by
  refine ⟨?_, ?_, ?_⟩
  · intro h
    simp only [writeRecord]
    rw [if_pos h, if_pos h]
    refine ⟨rfl, ?_, ?_⟩
    · split_ifs <;> simp
    · split_ifs <;> simp
  · intro h
    have h2 : ¬ cfg.maxBytes ≤ (s.file ++ ser r ++ ['\n']).length := by omega
    simp only [writeRecord]
    rw [if_neg h2, if_neg h2]
    refine ⟨rfl, ?_, ?_⟩
    · split_ifs <;> simp
    · intro q
      split_ifs <;> simp
  · intro line hdiv hmat
    rcases hcl : classifyLine cfg.minT cfg.maxT line with _ | _ | _ | rec
    · exact ⟨[Ev.skippedLine], by rw [stepLine, hcl], by simp, by simp⟩
    · exact absurd hcl hdiv
    · exact ⟨[], by rw [stepLine, hcl], by simp, by simp⟩
    · exact absurd hcl (hmat rec)

/-- The counter stays strictly below the cap after any matched write that
starts below the cap. -/
theorem writeRecord_chunk_lt (cfg : Config) (ser : Json → List Char) (s : SinkSt)
    (r : Json) (heps : 0 < cfg.epsMax) (hs : s.chunk < cfg.epsMax) :
    (writeRecord cfg ser s r).1.chunk < cfg.epsMax := by
  simp only [writeRecord]
  split_ifs <;> omega

theorem stepLine_state (cfg : Config) (ser : Json → List Char) (s : SinkSt)
    (l : Option Json) (s2 : SinkSt) (inc : Bool) (evs : List Ev)
    (h : stepLine cfg ser s l = some (s2, inc, evs)) :
    s2 = s ∨ ∃ r, classifyLine cfg.minT cfg.maxT l = .matched r ∧
      s2 = (writeRecord cfg ser s r).1 := by
  rw [stepLine] at h
  rcases hcl : classifyLine cfg.minT cfg.maxT l with _ | _ | _ | r <;> rw [hcl] at h
  · simp only [Option.some.injEq, Prod.mk.injEq] at h
    exact Or.inl h.1.symm
  · cases h
  · simp only [Option.some.injEq, Prod.mk.injEq] at h
    exact Or.inl h.1.symm
  · rcases hw : writeRecord cfg ser s r with ⟨ws, wevs⟩
    simp only [hw, Option.some.injEq, Prod.mk.injEq] at h
    exact Or.inr ⟨r, rfl, by rw [hw]; exact h.1.symm⟩

/-- The counter invariant holds across a whole per-day line loop. -/
theorem runLines_chunk_lt (cfg : Config) (ser : Json → List Char)
    (lines : List (Option Json)) :
    ∀ (s : SinkSt) (daily : Nat) (out : SinkSt × Nat × List Ev), 0 < cfg.epsMax →
      s.chunk < cfg.epsMax → runLines cfg ser s daily lines = some out →
      out.1.chunk < cfg.epsMax := by
  induction lines with
  | nil =>
    intro s daily out _ hs h
    simp only [runLines, Option.some.injEq] at h
    rw [← h]
    exact hs
  | cons l rest ih =>
    intro s daily out heps hs h
    rcases hstep : stepLine cfg ser s l with _ | ⟨s2, inc, evs⟩
    · rw [runLines_cons_none cfg ser s daily l rest hstep] at h
      cases h
    · rcases hrec : runLines cfg ser s2 (if inc then daily + 1 else daily) rest
        with _ | ⟨s3, d3, e3⟩
      · rw [runLines_cons_mid_none cfg ser s daily l rest s2 inc evs hstep hrec] at h
        cases h
      · rw [runLines_cons_some cfg ser s daily l rest s2 inc evs s3 d3 e3 hstep hrec] at h
        have hs2 : s2.chunk < cfg.epsMax := by
          rcases stepLine_state cfg ser s l s2 inc evs hstep with rfl | ⟨r, -, rfl⟩
          · exact hs
          · exact writeRecord_chunk_lt cfg ser s r heps hs
        have hlt := ih s2 (if inc then daily + 1 else daily) (s3, d3, e3) heps hs2 hrec
        simp only [Option.some.injEq] at h
        rw [← h]
        exact hlt

/-- C5 witness: with a one-byte ceiling, the first write rotates — the
file is left empty (content written before the rotation is gone) and the
`EPS_MAX/100`-second cooldown occurs. -/
theorem claim_C5_witness :
    (writeRecord cfgB serOne ⟨[], 0⟩ recGood).1.file = [] ∧
    Ev.truncated ∈ (writeRecord cfgB serOne ⟨[], 0⟩ recGood).2 ∧
    Ev.cooldown ((cfgB.epsMax : ℚ) / 100) ∈ (writeRecord cfgB serOne ⟨[], 0⟩ recGood).2 :=
  (claim_C5 cfgB serOne ⟨[], 0⟩ recGood).1 (by decide)

/-- C6 (as claimed): when the matched write is exactly the
`eventsPerSecond`-th since the last reset, a fixed 2-second pause occurs
in that step — before any further write — and the counter is reset to
zero; below the cap the counter just increments and no pause occurs;
non-matching lines neither pause nor change the counter (the pause is
driven purely by the count of matched writes); and across any run of the
line loop the counter stays below the cap, so the pause fires exactly at
the cap. -/
theorem claim_C6 (cfg : Config) (ser : Json → List Char) (s : SinkSt) (r : Json) :
    (s.chunk + 1 = cfg.epsMax →
      (writeRecord cfg ser s r).1.chunk = 0 ∧
      Ev.paused 2 ∈ (writeRecord cfg ser s r).2) ∧
    (s.chunk + 1 < cfg.epsMax →
      (writeRecord cfg ser s r).1.chunk = s.chunk + 1 ∧
      ∀ q, Ev.paused q ∉ (writeRecord cfg ser s r).2) ∧
    (∀ line, classifyLine cfg.minT cfg.maxT line ≠ LineRes.diverge →
      (∀ rec, classifyLine cfg.minT cfg.maxT line ≠ LineRes.matched rec) →
      ∃ evs, stepLine cfg ser s line = some (s, false, evs) ∧
        ∀ q, Ev.paused q ∉ evs) ∧
    (∀ lines daily out, 0 < cfg.epsMax → s.chunk < cfg.epsMax →
      runLines cfg ser s daily lines = some out → out.1.chunk < cfg.epsMax) := by
  refine ⟨?_, ?_, ?_, ?_⟩
  · intro h
    simp only [writeRecord]
    rw [if_pos (by omega : cfg.epsMax ≤ s.chunk + 1),
      if_pos (by omega : cfg.epsMax ≤ s.chunk + 1)]
    exact ⟨rfl, by simp⟩
  · intro h
    have hn : ¬ cfg.epsMax ≤ s.chunk + 1 := by omega
    simp only [writeRecord]
    rw [if_neg hn, if_neg hn]
    refine ⟨rfl, ?_⟩
    intro q
    split_ifs <;> simp
  · intro line hdiv hmat
    rcases hcl : classifyLine cfg.minT cfg.maxT line with _ | _ | _ | rec
    · exact ⟨[Ev.skippedLine], by rw [stepLine, hcl], by simp⟩
    · exact absurd hcl hdiv
    · exact ⟨[], by rw [stepLine, hcl], by simp⟩
    · exact absurd hcl (hmat rec)
  · exact fun lines daily out heps hs h =>
      runLines_chunk_lt cfg ser lines s daily out heps hs h

/-- C6 witness: with `EPS_MAX = 10` and 9 records written since the last
pause, the 10th write pauses for 2 seconds and resets the counter. -/
theorem claim_C6_witness :
    (writeRecord cfgA serOne ⟨[], 9⟩ recGood).1.chunk = 0 ∧
    Ev.paused 2 ∈ (writeRecord cfgA serOne ⟨[], 9⟩ recGood).2 :=
  (claim_C6 cfgA serOne ⟨[], 9⟩ recGood).1 (by decide)

/-! ## Per-line error handling and the day loop -/

theorem ne_diverge_of_isDivergeB {x : LineRes} (h : isDivergeB x = false) :
    x ≠ LineRes.diverge := by
  intro he
  subst he
  simp [isDivergeB] at h

/-- C8 (amended): a line that fails JSON parsing, or whose timestamp
field is missing, or — provided its padding loop terminates (first `'+'`
at index ≥ 20 when the pre-`'+'` prefix is shorter than 23) — whose
19-character prefix does not parse, is logged and skipped without
terminating the day's processing: the rest of the stream is processed
from an unchanged sink state and day counter, so every subsequent valid
line is still filtered, counted and written exactly as without the bad
line, which contributes only its own omission and a skip log. -/
theorem claim_C8 (cfg : Config) (ser : Json → List Char) (s : SinkSt) (daily : Nat)
    (rest : List (Option Json)) :
    classifyLine cfg.minT cfg.maxT none = .err ∧
    (∀ fs, List.lookup tsKey fs = none →
      classifyLine cfg.minT cfg.maxT (some (.obj fs)) = .err) ∧
    (∀ fs ts padded, List.lookup tsKey fs = some (.str ts) →
      padTimestamp ts = some padded → parse19 (ts.take 19) = none →
      classifyLine cfg.minT cfg.maxT (some (.obj fs)) = .err) ∧
    (∀ l, classifyLine cfg.minT cfg.maxT l = .err →
      runLines cfg ser s daily (l :: rest) =
        (runLines cfg ser s daily rest).map
          (fun out => (out.1, out.2.1, Ev.skippedLine :: out.2.2))) := by
  refine ⟨rfl, ?_, ?_, ?_⟩
  · intro fs h
    simp only [classifyLine, h]
  · intro fs ts padded h1 h2 h3
    simp only [classifyLine, h1, h2, h3]
  · intro l h
    have hstep : stepLine cfg ser s l = some (s, false, [Ev.skippedLine]) := by
      rw [stepLine, h]
    rcases hrec : runLines cfg ser s daily rest with _ | ⟨s3, d3, e3⟩
    · rw [runLines_cons_mid_none cfg ser s daily l rest s false [Ev.skippedLine]
        hstep hrec]
      rfl
    · rw [runLines_cons_some cfg ser s daily l rest s false [Ev.skippedLine]
        s3 d3 e3 hstep hrec]
      rfl

/-- C8 witness: a malformed-JSON line in front of a valid stream only
prepends a skip log; the rest of the day is processed identically. -/
theorem claim_C8_witness :
    runLines cfgA serOne ⟨[], 0⟩ 0 (none :: [some recGood]) =
      (runLines cfgA serOne ⟨[], 0⟩ 0 [some recGood]).map
        (fun out => (out.1, out.2.1, Ev.skippedLine :: out.2.2)) :=
  (claim_C8 cfgA serOne ⟨[], 0⟩ 0 [some recGood]).2.2.2 none rfl

/-- C8 counterexample: the claim also promises that a line whose
timestamp does not parse in the 19-character format is skipped with the
rest of the stream still processed; but on timestamp `"bad+time"` the
padding loop — which runs before the parse — diverges, the line is never
skipped, and the subsequent valid line (which alone would be matched and
counted) is never processed. -/
theorem claim_C8_counterexample :
    parse19 (tsBad.take 19) = none ∧
    padDiverges tsBad ∧
    classifyLine dtMin dtMax (some recBadTs) = .diverge ∧
    runLines cfgA serOne ⟨[], 0⟩ 0 [some recBadTs, some recGood] = none ∧
    (∃ out, runLines cfgA serOne ⟨[], 0⟩ 0 [some recGood] = some out ∧ out.2.1 = 1) := by
  refine ⟨rfl, ?_, rfl, rfl, ⟨_, rfl, rfl⟩⟩
  exact fun n => padLoopFuel_eq_none n _ (by decide) (by decide)

/-- Whenever every line's padding loop terminates, the per-day line loop
completes. -/
theorem runLines_total (cfg : Config) (ser : Json → List Char)
    (lines : List (Option Json)) :
    ∀ (s : SinkSt) (daily : Nat),
      (∀ l ∈ lines, classifyLine cfg.minT cfg.maxT l ≠ .diverge) →
      ∃ out, runLines cfg ser s daily lines = some out := by
  induction lines with
  | nil => exact fun s daily _ => ⟨(s, daily, []), rfl⟩
  | cons l rest ih =>
    intro s daily h
    have hrest : ∀ x ∈ rest, classifyLine cfg.minT cfg.maxT x ≠ .diverge :=
      fun x hx => h x (by simp [hx])
    rcases hcl : classifyLine cfg.minT cfg.maxT l with _ | _ | _ | r
    · have hstep : stepLine cfg ser s l = some (s, false, [Ev.skippedLine]) := by
        rw [stepLine, hcl]
      obtain ⟨⟨s3, d3, e3⟩, hout⟩ := ih s daily hrest
      exact ⟨_, runLines_cons_some cfg ser s daily l rest s false [Ev.skippedLine]
        s3 d3 e3 hstep hout⟩
    · exact absurd hcl (h l (by simp))
    · have hstep : stepLine cfg ser s l = some (s, false, []) := by
        rw [stepLine, hcl]
      obtain ⟨⟨s3, d3, e3⟩, hout⟩ := ih s daily hrest
      exact ⟨_, runLines_cons_some cfg ser s daily l rest s false []
        s3 d3 e3 hstep hout⟩
    · rcases hw : writeRecord cfg ser s r with ⟨ws, wevs⟩
      have hstep : stepLine cfg ser s l = some (ws, true, wevs) := by
        simp only [stepLine, hcl, hw]
      obtain ⟨⟨s3, d3, e3⟩, hout⟩ := ih ws (daily + 1) hrest
      exact ⟨_, runLines_cons_some cfg ser s daily l rest ws true wevs
        s3 d3 e3 hstep hout⟩

/-- C9: for every day whose download was verified, provided each line's
padding loop terminates, the day's processing completes and its event
trace ends with the temp-file deletion — whether the stream completed
normally or a mid-stream error aborted it (`streamErr`), and whatever
mix of valid, non-matching and erroring lines it contained; days without
a verified download produce no events at all. -/
theorem claim_C9 (cfg : Config) (ser : Json → List Char) (s : SinkSt)
    (lines : List (Option Json)) (streamErr : Bool)
    (h : ∀ l ∈ lines, classifyLine cfg.minT cfg.maxT l ≠ .diverge) :
    (∃ s2 daily evs,
      runDay cfg ser s (.content lines streamErr) =
        some (s2, daily, evs ++ [Ev.removedTemp])) ∧
    runDay cfg ser s .absent = some (s, 0, []) ∧
    runDay cfg ser s .headErr = some (s, 0, []) ∧
    runDay cfg ser s .downloadFailed = some (s, 0, []) := by
  refine ⟨?_, rfl, rfl, rfl⟩
  obtain ⟨⟨s2, daily, evs⟩, hout⟩ := runLines_total cfg ser lines s 0 h
  refine ⟨s2, daily, evs ++ (if streamErr then [Ev.streamErrLogged] else []), ?_⟩
  simp only [runDay, hout, List.append_assoc]

/-- C9 witness: a day with a matched line followed by a malformed line,
aborted by a mid-stream error, still ends with the temp-file removal. -/
theorem claim_C9_witness :
    ∃ s2 daily evs,
      runDay cfgA serOne ⟨[], 0⟩ (.content [some recGood, none] true) =
        some (s2, daily, evs ++ [Ev.removedTemp]) :=
  (claim_C9 cfgA serOne ⟨[], 0⟩ [some recGood, none] true (by
    intro l hl
    simp only [List.mem_cons, List.not_mem_nil, or_false] at hl
    rcases hl with rfl | rfl
    · exact ne_diverge_of_isDivergeB rfl
    · exact ne_diverge_of_isDivergeB rfl)).1

/-! ## The verified downloader -/

theorem attemptAccepts_of_checks (md5 : List Nat → List Char) (a : Attempt)
    (size : Nat) (raw : Option (List Char)) (data : List Nat)
    (hh : a.head = some (size, raw)) (hf : a.fetch = .ok data)
    (h1 : ¬ data.length ≠ size)
    (h2 : ¬ (effectiveTag raw ≠ ([] : List Char) ∧ effectiveTag raw ≠ md5 data)) :
    attemptAccepts md5 a = true := by
  push_neg at h1
  have h2' : effectiveTag raw = ([] : List Char) ∨ effectiveTag raw = md5 data := by
    by_cases hA : effectiveTag raw = ([] : List Char)
    · exact Or.inl hA
    · right
      by_contra hB
      exact h2 ⟨hA, hB⟩
  simp only [attemptAccepts, hh, hf]
  rcases h2' with h2' | h2' <;> simp [h1, h2']

theorem not_accepts_of_softFails {md5 : List Nat → List Char} {a : Attempt}
    (h : attemptSoftFails md5 a = true) : attemptAccepts md5 a = false := by
  cases hacc : attemptAccepts md5 a
  · rfl
  · simp [attemptSoftFails, hacc] at h

theorem attempt_status (md5 : List Nat → List Char) (a : Attempt) :
    a.head = none ∨ attemptAccepts md5 a = true ∨ attemptSoftFails md5 a = true := by
  rcases hh : a.head with _ | p
  · exact Or.inl rfl
  · cases hacc : attemptAccepts md5 a
    · refine Or.inr (Or.inr ?_)
      simp [attemptSoftFails, hh, hacc]
    · exact Or.inr (Or.inl rfl)

theorem dlAttempts_headErr (md5 : List Nat → List Char) (att : Nat → Attempt)
    (i : Nat) (rest : List Nat) (h : (att i).head = none) :
    dlAttempts md5 att (i :: rest) = (none, [DLEv.headFailLogged]) := by
  simp only [dlAttempts, h]

theorem dlAttempts_accepts (md5 : List Nat → List Char) (att : Nat → Attempt)
    (i : Nat) (rest : List Nat) (h : attemptAccepts md5 (att i) = true) :
    ∃ data, (att i).fetch = .ok data ∧
      dlAttempts md5 att (i :: rest) = (some data, []) := by
  rcases hh : (att i).head with _ | ⟨size, raw⟩ <;>
    rcases hf : (att i).fetch with _ | _ | data <;>
    simp [attemptAccepts, hh, hf] at h
  obtain ⟨h1, h2⟩ := h
  refine ⟨data, rfl, ?_⟩
  simp only [dlAttempts, hh, hf]
  rw [if_neg (by simp [h1]), if_neg (by
    rcases h2 with h2 | h2 <;> simp [h2])]

theorem dlAttempts_softFail_fst (md5 : List Nat → List Char) (att : Nat → Attempt)
    (i : Nat) (rest : List Nat) (h : attemptSoftFails md5 (att i) = true) :
    (dlAttempts md5 att (i :: rest)).1 = (dlAttempts md5 att rest).1 := by
  have hacc := not_accepts_of_softFails h
  rcases hh : (att i).head with _ | ⟨size, raw⟩
  · simp [attemptSoftFails, hh] at h
  · rcases hf : (att i).fetch with _ | _ | data
    · simp only [dlAttempts, hh, hf]
    · simp only [dlAttempts, hh, hf]
    · simp only [dlAttempts, hh, hf]
      split_ifs with h1 h2
      · rfl
      · rfl
      · exact absurd (attemptAccepts_of_checks md5 (att i) size raw data hh hf h1 h2)
          (by simp [hacc])

theorem dlAttempts_mismatch (md5 : List Nat → List Char) (att : Nat → Attempt)
    (i : Nat) (rest : List Nat) (h : attemptMismatch md5 (att i) = true) :
    dlAttempts md5 att (i :: rest) =
      ((dlAttempts md5 att rest).1,
        DLEv.removedTemp :: DLEv.slept2 :: (dlAttempts md5 att rest).2) := by
  rcases hh : (att i).head with _ | ⟨size, raw⟩ <;>
    rcases hf : (att i).fetch with _ | _ | data <;>
    simp [attemptMismatch, hh, hf] at h
  have hacc : attemptAccepts md5 (att i) = false := h
  simp only [dlAttempts, hh, hf]
  split_ifs with h1 h2
  · rfl
  · rfl
  · exact absurd (attemptAccepts_of_checks md5 (att i) size raw data hh hf h1 h2)
      (by simp [hacc])

/-- C2 (as claimed): `download_and_verify` accepts (returns a temp-file
handle, here the verified bytes) iff on some executed attempt the
streamed byte count equals that attempt's HEAD-reported length and, when
a truthy integrity token is present, the MD5 of the streamed bytes
equals it, every earlier attempt having failed retryably; it consults at
most exactly 3 attempts; three retryable failures yield definitive
failure (`none`); a verification mismatch discards the temp file and
sleeps a fixed 2 seconds before the retry; and a store reporting a wrong
length on attempts 1 and 2 and the correct one on attempt 3 yields
acceptance of attempt 3's bytes. -/
theorem claim_C2 (md5 : List Nat → List Char) (att : Nat → Attempt) :
    ((download_and_verify md5 att).1 ≠ none ↔
      (attemptAccepts md5 (att 1) = true ∨
        (attemptSoftFails md5 (att 1) = true ∧ attemptAccepts md5 (att 2) = true) ∨
        (attemptSoftFails md5 (att 1) = true ∧ attemptSoftFails md5 (att 2) = true ∧
          attemptAccepts md5 (att 3) = true))) ∧
    (∀ att2 : Nat → Attempt, att2 1 = att 1 → att2 2 = att 2 → att2 3 = att 3 →
      download_and_verify md5 att2 = download_and_verify md5 att) ∧
    (attemptSoftFails md5 (att 1) = true → attemptSoftFails md5 (att 2) = true →
      attemptSoftFails md5 (att 3) = true → (download_and_verify md5 att).1 = none) ∧
    (attemptMismatch md5 (att 1) = true →
      download_and_verify md5 att =
        ((dlAttempts md5 att [2, 3]).1,
          DLEv.removedTemp :: DLEv.slept2 :: (dlAttempts md5 att [2, 3]).2)) ∧
    (∀ size1 raw1 data1 size2 raw2 data2,
      att 1 = ⟨some (size1, raw1), .ok data1⟩ → data1.length ≠ size1 →
      att 2 = ⟨some (size2, raw2), .ok data2⟩ → data2.length ≠ size2 →
      attemptAccepts md5 (att 3) = true →
      ∃ data3, (att 3).fetch = .ok data3 ∧
        (download_and_verify md5 att).1 = some data3) := by
  refine ⟨⟨?_, ?_⟩, ?_, ?_, ?_, ?_⟩
  · intro h
    by_contra hc
    push_neg at hc
    apply h
    show (dlAttempts md5 att [1, 2, 3]).1 = none
    rcases attempt_status md5 (att 1) with h1 | h1 | h1
    · rw [dlAttempts_headErr md5 att 1 [2, 3] h1]
    · exact absurd h1 (by simpa using hc.1)
    · rw [dlAttempts_softFail_fst md5 att 1 [2, 3] h1]
      rcases attempt_status md5 (att 2) with h2 | h2 | h2
      · rw [dlAttempts_headErr md5 att 2 [3] h2]
      · exact absurd h2 (by simpa using (hc.2.1 h1))
      · rw [dlAttempts_softFail_fst md5 att 2 [3] h2]
        rcases attempt_status md5 (att 3) with h3 | h3 | h3
        · rw [dlAttempts_headErr md5 att 3 [] h3]
        · exact absurd h3 (by simpa using (hc.2.2 h1 h2))
        · rw [dlAttempts_softFail_fst md5 att 3 [] h3]
          rfl
  · intro h
    show (dlAttempts md5 att [1, 2, 3]).1 ≠ none
    rcases h with h1 | ⟨h1, h2⟩ | ⟨h1, h2, h3⟩
    · obtain ⟨data, -, hdl⟩ := dlAttempts_accepts md5 att 1 [2, 3] h1
      rw [hdl]
      simp
    · rw [dlAttempts_softFail_fst md5 att 1 [2, 3] h1]
      obtain ⟨data, -, hdl⟩ := dlAttempts_accepts md5 att 2 [3] h2
      rw [hdl]
      simp
    · rw [dlAttempts_softFail_fst md5 att 1 [2, 3] h1,
        dlAttempts_softFail_fst md5 att 2 [3] h2]
      obtain ⟨data, -, hdl⟩ := dlAttempts_accepts md5 att 3 [] h3
      rw [hdl]
      simp
  · intro att2 h1 h2 h3
    simp only [download_and_verify, dlAttempts, h1, h2, h3]
  · intro h1 h2 h3
    show (dlAttempts md5 att [1, 2, 3]).1 = none
    rw [dlAttempts_softFail_fst md5 att 1 [2, 3] h1,
      dlAttempts_softFail_fst md5 att 2 [3] h2,
      dlAttempts_softFail_fst md5 att 3 [] h3]
    rfl
  · intro h
    exact dlAttempts_mismatch md5 att 1 [2, 3] h
  · intro size1 raw1 data1 size2 raw2 data2 ha1 hl1 ha2 hl2 hacc3
    have hh1 : (att 1).head = some (size1, raw1) := by rw [ha1]
    have hf1 : (att 1).fetch = .ok data1 := by rw [ha1]
    have hh2 : (att 2).head = some (size2, raw2) := by rw [ha2]
    have hf2 : (att 2).fetch = .ok data2 := by rw [ha2]
    have hs1 : attemptSoftFails md5 (att 1) = true := by
      have hna : attemptAccepts md5 (att 1) = false := by
        simp only [attemptAccepts, hh1, hf1]
        simp [hl1]
      simp [attemptSoftFails, hh1, hna]
    have hs2 : attemptSoftFails md5 (att 2) = true := by
      have hna : attemptAccepts md5 (att 2) = false := by
        simp only [attemptAccepts, hh2, hf2]
        simp [hl2]
      simp [attemptSoftFails, hh2, hna]
    obtain ⟨data3, hf3, hdl⟩ := dlAttempts_accepts md5 att 3 [] hacc3
    refine ⟨data3, hf3, ?_⟩
    show (dlAttempts md5 att [1, 2, 3]).1 = some data3
    rw [dlAttempts_softFail_fst md5 att 1 [2, 3] hs1,
      dlAttempts_softFail_fst md5 att 2 [3] hs2, hdl]

/-- C2 witness: the spec's store-double — wrong length on attempts 1 and
2, correct on attempt 3 — is accepted with attempt 3's bytes. -/
theorem claim_C2_witness :
    ∃ data3, (attWWR 3).fetch = .ok data3 ∧
      (download_and_verify md5Nil attWWR).1 = some data3 :=
  (claim_C2 md5Nil attWWR).2.2.2.2 5 none [1, 2, 3] 5 none [1, 2, 3]
    rfl (by decide) rfl (by decide) (by decide)

/-! ## Object-key derivation -/

theorem decode_digits_rev (md : List Nat) (h : ∀ e ∈ md, e < 10) :
    decodeDigits ((md.map (fun e => Char.ofNat (48 + e))).reverse) =
      Nat.ofDigits 10 md := by
  have hc : ∀ e, e < 10 → (Char.ofNat (48 + e)).toNat = 48 + e := by decide
  induction md with
  | nil => simp [decodeDigits, Nat.ofDigits_nil]
  | cons e tl ih =>
    have htl : ∀ x ∈ tl, x < 10 := fun x hx => h x (by simp [hx])
    have he : e < 10 := h e (by simp)
    simp only [List.map_cons, List.reverse_cons, decodeDigits, List.foldl_append,
      List.foldl_cons, List.foldl_nil]
    have : decodeDigits ((tl.map (fun e => Char.ofNat (48 + e))).reverse) =
        Nat.ofDigits 10 tl := ih htl
    simp only [decodeDigits] at this
    rw [this, Nat.ofDigits_cons]
    simp only [digitVal, hc e he]
    omega

theorem natDigitsAux_eq_digits :
    ∀ fuel n, n ≤ fuel → natDigitsAux fuel n = Nat.digits 10 n := by
  intro fuel
  induction fuel with
  | zero =>
    intro n hn
    have : n = 0 := by omega
    subst this
    simp [natDigitsAux]
  | succ k ih =>
    intro n hn
    by_cases h0 : n = 0
    · subst h0
      simp [natDigitsAux]
    · rw [natDigitsAux, if_neg h0, Nat.digits_def' (by norm_num : 1 < 10) (by omega),
        ih (n / 10) (by omega)]

theorem natDigits_eq_digits (n : Nat) : natDigits n = Nat.digits 10 n :=
  natDigitsAux_eq_digits n n le_rfl

theorem decode_natStr (n : Nat) : decodeDigits (natStr n) = n := by
  by_cases h0 : n = 0
  · subst h0
    decide
  · rw [natStr, if_neg h0, natDigits_eq_digits,
      decode_digits_rev _ (fun e he => Nat.digits_lt_base (by norm_num) he)]
    exact Nat.ofDigits_digits 10 n

theorem natStr_ne_slash (n : Nat) : ∀ c ∈ natStr n, c ≠ '/' := by
  by_cases h0 : n = 0
  · subst h0
    decide
  · intro c hc
    rw [natStr, if_neg h0, natDigits_eq_digits] at hc
    simp only [List.mem_reverse, List.mem_map] at hc
    obtain ⟨e, he, rfl⟩ := hc
    have hlt : e < 10 := Nat.digits_lt_base (by norm_num) he
    have htab : ∀ x, x < 10 → (Char.ofNat (48 + x)).toNat = 48 + x := by decide
    have htn := htab e hlt
    intro heq
    rw [heq] at htn
    have h47 : ('/').toNat = 47 := rfl
    rw [h47] at htn
    omega

theorem pad2_ne_slash (d : Nat) : ∀ c ∈ pad2 d, c ≠ '/' := by
  intro c hc
  rw [pad2] at hc
  by_cases hd : d < 10
  · rw [if_pos hd] at hc
    rcases List.mem_cons.mp hc with rfl | hc2
    · decide
    · exact natStr_ne_slash d c hc2
  · rw [if_neg hd] at hc
    exact natStr_ne_slash d c hc

theorem decode_pad2 (d : Nat) : decodeDigits (pad2 d) = d := by
  rw [pad2]
  split_ifs
  · have h0 : decodeDigits ('0' :: natStr d) = decodeDigits (natStr d) := rfl
    rw [h0, decode_natStr]
  · exact decode_natStr d

theorem takeWhile_append_stop (p : Char → Bool) (l1 l2 : List Char) (c : Char)
    (h1 : ∀ x ∈ l1, p x = true) (h2 : p c = false) :
    (l1 ++ c :: l2).takeWhile p = l1 := by
  induction l1 with
  | nil => simp [List.takeWhile_cons, h2]
  | cons a tl ih =>
    have ha : p a = true := h1 a (by simp)
    have htl : ∀ x ∈ tl, p x = true := fun x hx => h1 x (by simp [hx])
    simp [List.takeWhile_cons, ha, ih htl]

theorem drop_append_cons (l1 l2 : List Char) (c : Char) :
    (l1 ++ c :: l2).drop (l1.length + 1) = l2 := by
  rw [show l1 ++ c :: l2 = (l1 ++ [c]) ++ l2 by simp,
    show l1.length + 1 = (l1 ++ [c]).length by simp]
  exact List.drop_left _ _

theorem month_ne_slash (m : Nat) (h1 : 1 ≤ m) (h2 : m ≤ 12) :
    ∀ c ∈ month_dict.getD m [], c ≠ '/' := by
  interval_cases m <;> decide

theorem month_indexOf (m : Nat) (h1 : 1 ≤ m) (h2 : m ≤ 12) :
    month_dict.indexOf (month_dict.getD m []) = m := by
  interval_cases m <;> decide

theorem parseKey_objectKey (y m d : Nat) (h1 : 1 ≤ m) (h2 : m ≤ 12) :
    parseKey (objectKey y m d) = (y, m, d) := by
  have tw1 : (natStr y ++ '/' :: (month_dict.getD m [] ++ '/' ::
      ("ossec-archive-".data ++ (pad2 d ++ ".json.gz".data)))).takeWhile
        (fun c => c ≠ '/') = natStr y :=
    takeWhile_append_stop _ _ _ '/'
      (fun x hx => by simp [natStr_ne_slash y x hx]) (by decide)
  have dr1 : (natStr y ++ '/' :: (month_dict.getD m [] ++ '/' ::
      ("ossec-archive-".data ++ (pad2 d ++ ".json.gz".data)))).drop
        ((natStr y).length + 1) =
      month_dict.getD m [] ++ '/' ::
        ("ossec-archive-".data ++ (pad2 d ++ ".json.gz".data)) :=
    drop_append_cons _ _ '/'
  have tw2 : (month_dict.getD m [] ++ '/' ::
      ("ossec-archive-".data ++ (pad2 d ++ ".json.gz".data))).takeWhile
        (fun c => c ≠ '/') = month_dict.getD m [] :=
    takeWhile_append_stop _ _ _ '/'
      (fun x hx => by simp [month_ne_slash m h1 h2 x hx]) (by decide)
  have dr2 : (month_dict.getD m [] ++ '/' ::
      ("ossec-archive-".data ++ (pad2 d ++ ".json.gz".data))).drop
        ((month_dict.getD m []).length + 1) =
      "ossec-archive-".data ++ (pad2 d ++ ".json.gz".data) :=
    drop_append_cons _ _ '/'
  have p14 : ("ossec-archive-".data ++ (pad2 d ++ ".json.gz".data)).drop 14 =
      pad2 d ++ ".json.gz".data := by
    have h14 : ("ossec-archive-".data).length = 14 := rfl
    rw [← h14]
    exact List.drop_left _ _
  have ptake : (pad2 d ++ ".json.gz".data).take
      ((pad2 d ++ ".json.gz".data).length - 8) = pad2 d := by
    have hlen : (pad2 d ++ ".json.gz".data).length - 8 = (pad2 d).length := by
      simp
    rw [hlen]
    exact List.take_left _ _
  have hK : objectKey y m d = natStr y ++ '/' :: (month_dict.getD m [] ++ '/' ::
      ("ossec-archive-".data ++ (pad2 d ++ ".json.gz".data))) := by
    simp [objectKey]
  simp only [parseKey]
  rw [hK, tw1, dr1, tw2, dr2, p14, ptake, decode_natStr, decode_pad2,
    month_indexOf m h1 h2]

/-- C7 (as claimed): the object key is a pure function of the calendar
date with the shape `{YYYY}/{MonthAbbrev}/ossec-archive-{DD}.json.gz`
(month abbreviation from the fixed table, day zero-padded); it is
injective on calendar dates (month in `[1,12]`) — distinct dates yield
distinct keys, so it is a bijection onto its key pattern — and
`(2024, 1, 1)` maps to `"2024/Jan/ossec-archive-01.json.gz"`. -/
theorem claim_C7 :
    (∀ y m d, 1 ≤ m → m ≤ 12 → parseKey (objectKey y m d) = (y, m, d)) ∧
    (∀ y1 m1 d1 y2 m2 d2, 1 ≤ m1 → m1 ≤ 12 → 1 ≤ m2 → m2 ≤ 12 →
      objectKey y1 m1 d1 = objectKey y2 m2 d2 →
      y1 = y2 ∧ m1 = m2 ∧ d1 = d2) ∧
    objectKey 2024 1 1 = "2024/Jan/ossec-archive-01.json.gz".data := by
  refine ⟨parseKey_objectKey, ?_, by decide⟩
  intro y1 m1 d1 y2 m2 d2 ha1 ha2 hb1 hb2 h
  have hp := parseKey_objectKey y1 m1 d1 ha1 ha2
  rw [h, parseKey_objectKey y2 m2 d2 hb1 hb2] at hp
  simp only [Prod.mk.injEq] at hp
  exact ⟨hp.1.symm, hp.2.1.symm, hp.2.2.symm⟩

/-- C7 witness: the example date `(2024, 1, 1)` round-trips through its
derived key. -/
theorem claim_C7_witness : parseKey (objectKey 2024 1 1) = (2024, 1, 1) :=
  claim_C7.1 2024 1 1 (by decide) (by decide)

/-! ## The day-range driver: calendar lemmas -/

theorem daysInMonth_pos (y m : Nat) : 1 ≤ daysInMonth y m := by
  unfold daysInMonth
  split_ifs <;> omega

theorem daysInMonth_le_31 (y m : Nat) : daysInMonth y m ≤ 31 := by
  unfold daysInMonth
  split_ifs <;> omega

theorem date_ext {a b : Date} (h1 : a.year = b.year) (h2 : a.month = b.month)
    (h3 : a.day = b.day) : a = b := by
  cases a
  cases b
  simp_all

theorem valid_nextDay {d : Date} (h : ValidDate d) : ValidDate (nextDay d) := by
  obtain ⟨h1, h2, h3, h4⟩ := h
  unfold ValidDate nextDay
  split_ifs with hd hm <;> dsimp only <;> refine ⟨?_, ?_, ?_, ?_⟩ <;>
    first
      | omega
      | exact daysInMonth_pos _ _

theorem dayIdx_lt_nextDay {d : Date} (h : ValidDate d) : dayIdx d < dayIdx (nextDay d) := by
  obtain ⟨h1, h2, h3, h4⟩ := h
  have h31 : daysInMonth d.year d.month ≤ 31 := daysInMonth_le_31 _ _
  unfold nextDay dayIdx
  split_ifs with hd hm <;> dsimp only <;> omega

theorem dayIdx_le_of_dLe {a b : Date} (ha : ValidDate a) (hb : ValidDate b)
    (h : dLe a b) : dayIdx a ≤ dayIdx b := by
  obtain ⟨ha1, ha2, ha3, ha4⟩ := ha
  obtain ⟨hb1, hb2, hb3, hb4⟩ := hb
  have ha31 : daysInMonth a.year a.month ≤ 31 := daysInMonth_le_31 _ _
  have hb31 : daysInMonth b.year b.month ≤ 31 := daysInMonth_le_31 _ _
  unfold dLe at h
  unfold dayIdx
  omega

theorem dLe_refl (a : Date) : dLe a a := by
  unfold dLe
  omega

theorem dLe_trans {a b c : Date} (h1 : dLe a b) (h2 : dLe b c) : dLe a c := by
  unfold dLe at h1 h2 ⊢
  omega

theorem dLe_of_dLt {a b : Date} (h : dLt a b) : dLe a b := by
  unfold dLt at h
  unfold dLe
  omega

theorem dLt_of_dLt_of_dLe {a b c : Date} (h1 : dLt a b) (h2 : dLe b c) : dLt a c := by
  unfold dLt at h1 ⊢
  unfold dLe at h2
  omega

theorem dLt_nextDay {d : Date} (h : ValidDate d) : dLt d (nextDay d) := by
  obtain ⟨h1, h2, h3, h4⟩ := h
  unfold nextDay dLt
  split_ifs with hd hm <;> dsimp only <;> omega

theorem dLt_or_eq_of_dLe {a b : Date} (h : dLe a b) : dLt a b ∨ a = b := by
  have : dLt a b ∨ (a.year = b.year ∧ a.month = b.month ∧ a.day = b.day) := by
    unfold dLe at h
    unfold dLt
    omega
  rcases this with h2 | ⟨e1, e2, e3⟩
  · exact Or.inl h2
  · exact Or.inr (date_ext e1 e2 e3)

theorem dLe_nextDay_of_dLt {a b : Date} (ha : ValidDate a) (hb : ValidDate b)
    (h : dLt a b) : dLe (nextDay a) b := by
  obtain ⟨ha1, ha2, ha3, ha4⟩ := ha
  obtain ⟨hb1, hb2, hb3, hb4⟩ := hb
  unfold dLt at h
  unfold nextDay dLe
  split_ifs with hd hm <;> dsimp only
  · omega
  · rcases h with hy | ⟨hy, hm2 | ⟨hm2, hd2⟩⟩
    · omega
    · omega
    · rw [← hy, ← hm2] at hb4
      omega
  · rcases h with hy | ⟨hy, hm2 | ⟨hm2, hd2⟩⟩
    · omega
    · omega
    · rw [← hy, ← hm2] at hb4
      omega

theorem dateRangeAux_shape (fin : Date) (k : Nat) (a : Date) :
    dateRangeAux fin k a = [] ∨ ∃ t, dateRangeAux fin k a = a :: t := by
  cases k with
  | zero => exact Or.inl rfl
  | succ n =>
    rw [dateRangeAux]
    split_ifs
    · exact Or.inr ⟨_, rfl⟩
    · exact Or.inl rfl

theorem dateRangeAux_spec (fin : Date) (hfin : ValidDate fin) :
    ∀ (k : Nat) (a : Date), ValidDate a → dayIdx fin + 1 - dayIdx a ≤ k →
      ((∀ x ∈ dateRangeAux fin k a, ValidDate x ∧ dLe a x ∧ dLe x fin) ∧
       (∀ x, ValidDate x → dLe a x → dLe x fin → x ∈ dateRangeAux fin k a) ∧
       List.Chain' (fun p q => q = nextDay p) (dateRangeAux fin k a) ∧
       (dateRangeAux fin k a).Pairwise dLt) := by
  intro k
  induction k with
  | zero =>
    intro a ha hfuel
    refine ⟨by simp [dateRangeAux], ?_, by simp [dateRangeAux], by simp [dateRangeAux]⟩
    intro x hx h1 h2
    have m1 := dayIdx_le_of_dLe ha hx h1
    have m2 := dayIdx_le_of_dLe hx hfin h2
    omega
  | succ n ih =>
    intro a ha hfuel
    by_cases hab : dLe a fin
    · have hnext : ValidDate (nextDay a) := valid_nextDay ha
      have hidx : dayIdx a < dayIdx (nextDay a) := dayIdx_lt_nextDay ha
      have hfin2 : dayIdx a ≤ dayIdx fin := dayIdx_le_of_dLe ha hfin hab
      have hfuel2 : dayIdx fin + 1 - dayIdx (nextDay a) ≤ n := by omega
      obtain ⟨ihm, ihc, ihchain, ihpw⟩ := ih (nextDay a) hnext hfuel2
      have hdef : dateRangeAux fin (n + 1) a = a :: dateRangeAux fin n (nextDay a) := by
        rw [dateRangeAux, if_pos hab]
      rw [hdef]
      refine ⟨?_, ?_, ?_, ?_⟩
      · intro x hx
        rcases List.mem_cons.mp hx with rfl | hx2
        · exact ⟨ha, dLe_refl x, hab⟩
        · obtain ⟨hv, h1, h2⟩ := ihm x hx2
          exact ⟨hv, dLe_trans (dLe_of_dLt (dLt_nextDay ha)) h1, h2⟩
      · intro x hx h1 h2
        rcases dLt_or_eq_of_dLe h1 with hlt | rfl
        · exact List.mem_cons_of_mem a
            (ihc x hx (dLe_nextDay_of_dLt ha hx hlt) h2)
        · exact List.mem_cons_self a _
      · rw [List.chain'_cons']
        refine ⟨?_, ihchain⟩
        intro h hh
        rcases dateRangeAux_shape fin n (nextDay a) with hsh | ⟨t, hsh⟩
        · rw [hsh] at hh
          simp at hh
        · rw [hsh] at hh
          simp at hh
          exact hh.symm
      · rw [List.pairwise_cons]
        refine ⟨?_, ihpw⟩
        intro x hx
        obtain ⟨-, h1, -⟩ := ihm x hx
        exact dLt_of_dLt_of_dLe (dLt_nextDay ha) h1
    · have hdef : dateRangeAux fin (n + 1) a = [] := by
        rw [dateRangeAux, if_neg hab]
      rw [hdef]
      refine ⟨by simp, ?_, by simp, by simp⟩
      intro x hx h1 h2
      exact absurd (dLe_trans h1 h2) hab

/-- The day loop visits exactly the valid dates between the truncated
bounds, in ascending order, one day at a time. -/
theorem dateRange_spec (a fin : Date) (ha : ValidDate a) (hfin : ValidDate fin) :
    (∀ x ∈ dateRange a fin, ValidDate x ∧ dLe a x ∧ dLe x fin) ∧
    (∀ x, ValidDate x → dLe a x → dLe x fin → x ∈ dateRange a fin) ∧
    List.Chain' (fun p q => q = nextDay p) (dateRange a fin) ∧
    (dateRange a fin).Pairwise dLt :=
  dateRangeAux_spec fin hfin (dayIdx fin + 1 - dayIdx a) a ha le_rfl

/-- If every day's input lets its lines terminate, the whole driver
completes, and it tallies exactly the dates of the range in order. -/
theorem runDays_spec (cfg : Config) (ser : Json → List Char) (inputs : Date → DayInput) :
    ∀ (ds : List Date) (s : SinkSt),
      (∀ d ∈ ds, DayTerminates cfg (inputs d)) →
      ∃ s2 tally evs, runDays cfg ser inputs s ds = some (s2, tally, evs) ∧
        tally.map Prod.fst = ds := by
  intro ds
  induction ds with
  | nil => exact fun s _ => ⟨s, [], [], rfl, rfl⟩
  | cons d rest ih =>
    intro s h
    have hday : ∃ out, runDay cfg ser s (inputs d) = some out := by
      rcases hinp : inputs d with _ | _ | _ | ⟨lines, serr⟩
      · exact ⟨(s, 0, []), rfl⟩
      · exact ⟨(s, 0, []), rfl⟩
      · exact ⟨(s, 0, []), rfl⟩
      · have hterm := h d (by simp)
        rw [hinp] at hterm
        obtain ⟨⟨s2, daily, evs⟩, hout⟩ := runLines_total cfg ser lines s 0 hterm
        exact ⟨(s2, daily,
          evs ++ (if serr then [Ev.streamErrLogged] else []) ++ [Ev.removedTemp]),
          by simp only [runDay, hout]⟩
    obtain ⟨⟨s2, daily, evs⟩, hday⟩ := hday
    obtain ⟨s3, tally, evs3, hrec, htal⟩ := ih s2 (fun x hx => h x (by simp [hx]))
    refine ⟨s3, (d, daily) :: tally,
      (Ev.visited d.year d.month d.day :: evs) ++ evs3, ?_, ?_⟩
    · simp only [runDays, hday, hrec]
    · simp [htal]

/-- C4 (as claimed): provided the padding loop terminates on every line
the range presents (so no day hangs), the driver completes for any
per-day outcomes — object absent, head error, download failure, or
content with stream errors never stop the iteration — visiting exactly
the calendar dates `d` with `date(min) ≤ d ≤ date(max)` (both
inclusive), each exactly once, in strictly ascending order, advancing by
exactly one calendar day per iteration, and no date outside the range. -/
theorem claim_C4 (cfg : Config) (ser : Json → List Char) (inputs : Date → DayInput)
    (prior : List Char)
    (hmin : ValidDate (dateOf cfg.minT)) (hmax : ValidDate (dateOf cfg.maxT))
    (hterm : ∀ d ∈ dateRange (dateOf cfg.minT) (dateOf cfg.maxT),
      DayTerminates cfg (inputs d)) :
    (∃ s2 tally evs, runPipeline cfg ser inputs prior = some (s2, tally, evs) ∧
      tally.map Prod.fst = dateRange (dateOf cfg.minT) (dateOf cfg.maxT)) ∧
    (∀ x, ValidDate x →
      (x ∈ dateRange (dateOf cfg.minT) (dateOf cfg.maxT) ↔
        dLe (dateOf cfg.minT) x ∧ dLe x (dateOf cfg.maxT))) ∧
    (∀ x ∈ dateRange (dateOf cfg.minT) (dateOf cfg.maxT), ValidDate x) ∧
    List.Chain' (fun p q => q = nextDay p)
      (dateRange (dateOf cfg.minT) (dateOf cfg.maxT)) ∧
    (dateRange (dateOf cfg.minT) (dateOf cfg.maxT)).Pairwise dLt := by
  obtain ⟨hmem, hcov, hchain, hpw⟩ := dateRange_spec _ _ hmin hmax
  refine ⟨?_, ?_, ?_, hchain, hpw⟩
  · obtain ⟨s2, tally, evs, hrun, htal⟩ :=
      runDays_spec cfg ser inputs (dateRange (dateOf cfg.minT) (dateOf cfg.maxT))
        ⟨openTruncate prior, 0⟩ hterm
    exact ⟨s2, tally, evs, hrun, htal⟩
  · intro x hx
    constructor
    · intro hmem2
      obtain ⟨-, h1, h2⟩ := hmem x hmem2
      exact ⟨h1, h2⟩
    · intro ⟨h1, h2⟩
      exact hcov x hx h1 h2
  · exact fun x hx => (hmem x hx).1

/-- C4 witness: with bounds `2024-01-01T00:00:00` and
`2024-01-02T00:00:00` and every object absent, the driver still visits
exactly January 1 and January 2, 2024, in order. -/
theorem claim_C4_witness :
    ∃ s2 tally evs,
      runPipeline cfgA serOne (fun _ => DayInput.absent) [] = some (s2, tally, evs) ∧
      tally.map Prod.fst = dateRange (dateOf cfgA.minT) (dateOf cfgA.maxT) :=
  (claim_C4 cfgA serOne (fun _ => DayInput.absent) [] (by decide) (by decide)
    (fun _ _ => trivial)).1

/-! ## Output-file truncation at pipeline start -/

theorem runDays_absent (cfg : Config) (ser : Json → List Char)
    (inputs : Date → DayInput) (h : ∀ d, inputs d = DayInput.absent) :
    ∀ (ds : List Date) (s : SinkSt),
      ∃ tally evs, runDays cfg ser inputs s ds = some (s, tally, evs) := by
  intro ds
  induction ds with
  | nil => exact fun s => ⟨[], [], rfl⟩
  | cons d rest ih =>
    intro s
    obtain ⟨tally, evs, hrec⟩ := ih s
    refine ⟨(d, 0) :: tally, Ev.visited d.year d.month d.day :: evs, ?_⟩
    simp only [runDays, h d, runDay, hrec]
    rfl

/-- C10 (implicit claim, as stated): at pipeline start the output file is
opened with mode `'w'`, so whatever the path held before is discarded —
the file is at zero length before the first record is written, the run's
outcome is independent of the prior content, and a run that matches zero
records (for instance because every day's object is absent) still leaves
the output file empty, the prior content destroyed. -/
theorem claim_C10 (cfg : Config) (ser : Json → List Char) (inputs : Date → DayInput)
    (prior : List Char) :
    openTruncate prior = [] ∧
    runPipeline cfg ser inputs prior = runPipeline cfg ser inputs [] ∧
    ((∀ d, inputs d = DayInput.absent) →
      ∀ out, runPipeline cfg ser inputs prior = some out → out.1.file = []) := by
  refine ⟨rfl, rfl, ?_⟩
  intro habs out hout
  obtain ⟨tally, evs, hrun⟩ := runDays_absent cfg ser inputs habs
    (dateRange (dateOf cfg.minT) (dateOf cfg.maxT)) ⟨openTruncate prior, 0⟩
  simp only [runPipeline] at hout
  rw [hrun] at hout
  simp only [Option.some.injEq] at hout
  rw [← hout]
  rfl

/-- C10 witness: with pre-existing content at the output path and a run
matching zero records, the pipeline leaves the output file empty. -/
theorem claim_C10_witness :
    openTruncate "previous-content".data = [] ∧
    ∀ out, runPipeline cfgA serOne (fun _ => DayInput.absent) "previous-content".data =
      some out → out.1.file = [] :=
  ⟨(claim_C10 cfgA serOne (fun _ => DayInput.absent) "previous-content".data).1,
   (claim_C10 cfgA serOne (fun _ => DayInput.absent) "previous-content".data).2.2
     (fun _ => rfl)⟩
